import Mathlib

/-!
# Verification of the `@quave/migrations` engine

Shallow embedding of `src/migrations.ts` (class `Migrations`) and the parts of
`src/types.ts` it depends on.  The MongoDB collection holding the control
document is modelled as an explicit state (`DbState`); each driver call
consumes one entry of a fault schedule so that database-communication errors
can be injected.  User-supplied migration actions are modelled by their
observable outcome (resolve or throw).  Async/await sequencing collapses to
sequential state passing, which is faithful here because the engine awaits
every asynchronous operation it starts.
-/

set_option maxHeartbeats 1000000

deriving instance DecidableEq for Except

namespace QuaveMigrations

/-- Direction of a migration step (`'up' | 'down'`). -/
inductive Dir
  | up
  | down
  deriving DecidableEq, Repr

/-- Observable events of an engine run: lock/unlock attempts, the start of a
step action invocation, each successful persist of the control version, and
the `process.exit(0)` side effect of the `exit` subcommand. -/
inductive Ev
  | lockAttempt
  | unlockAttempt
  | run (dir : Dir) (version : Int)
  | persist (version : Int)
  | processExit
  deriving DecidableEq, Repr

/-- Errors. One constructor per `new Error(...)` site of the source, plus
errors thrown by user-supplied migration actions (`userError`) and errors
raised by the database driver itself (`dbError`). -/
inductive JsError
  | noUpFunction                               -- 'Migration must supply an up function.'
  | versionNotNumber                           -- 'Migration must supply a version number.'
  | versionNotPositive                         -- 'Migration version must be greater than 0'
  | notConfigured                              -- 'Database connection not set...'
  | invalidCommand                             -- 'Cannot migrate using invalid command: ...'
  | lockHeld                                   -- 'Migration control is locked'
  | notFound (version : Option Int)            -- 'Can not find migration version X'
  | indexNotFound (idx : Int)                  -- 'Migration at index X not found'
  | cannotMigrate (dir : Dir) (version : Int)  -- 'Cannot migrate DIR on version X'
  | userError (tag : Nat)
  | dbError (tag : Nat)
  deriving DecidableEq, Repr

/-- A user-supplied migration as stored in the registry (interface
`Migration`).  `up`/`down` are JS function fields; the embedding records, for
each of them, whether the field holds a function at all (`none` = absent or
not a function) and, when it does, the outcome of invoking that function
(`some none` = the action resolves, `some (some e)` = the action throws `e`;
each invocation behaves the same).  `version` is a JS number; versions are
modelled as `Int`. -/
structure Migration where
  version : Int
  name : Option String := none
  up : Option (Option JsError) := none
  down : Option (Option JsError) := none
  deriving DecidableEq, Repr

/-- The persisted control document (`interface ControlDocument`): `_id` is the
constant `'control'` and is left implicit; `lockedAt` is a wall-clock
timestamp with no behavioural role and is not modelled. -/
structure ControlDocument where
  version : Int
  locked : Bool
  deriving DecidableEq, Repr

/-- `interface MigrationResult`.  `toVersion` is a JS number that can be `NaN`
(modelled `none`) when a non-numeric string command is parsed. -/
structure MigrationResult where
  success : Bool
  fromVersion : Int
  toVersion : Option Int
  migrationsRun : Nat
  error : Option JsError := none
  deriving DecidableEq, Repr

/-- State of the world a run interacts with: the control document of the
migrations collection (`none` = absent), a fault schedule consumed one entry
per driver call (`some e` makes that call throw `e`; an exhausted schedule
means no faults), the engine's `migrationsRun` local counter (a mutable
variable captured by the `try`/`catch`, hence state), and the event trace. -/
structure DbState where
  control : Option ControlDocument := none
  faults : List (Option JsError) := []
  runCounter : Nat := 0
  trace : List Ev := []
  deriving DecidableEq, Repr

/-- Engine computations: state passing plus JS exceptions. -/
def M (α : Type) : Type := DbState → Except JsError α × DbState

def M.pure (a : α) : M α := fun s => (.ok a, s)

def M.bind (x : M α) (f : α → M β) : M β := fun s =>
  match x s with
  | (.ok a, s₁) => f a s₁
  | (.error e, s₁) => (.error e, s₁)

instance : Monad M where
  pure := M.pure
  bind := M.bind

/-- `throw e` — a JS `throw` / rejected promise. -/
def M.throw (e : JsError) : M α := fun s => (.error e, s)

/-- Lift a synchronously-evaluated `Except` (used for `findIndexByVersion`,
which throws synchronously inside the `try` block). -/
def M.ofExcept (x : Except JsError α) : M α := fun s => (x, s)

/-- JS `try { x } catch (e) { handler e }`: state mutations performed before
the throw persist into the handler. -/
def M.tryCatch (x : M α) (handler : JsError → M α) : M α := fun s =>
  match x s with
  | (.ok a, s₁) => (.ok a, s₁)
  | (.error e, s₁) => handler e s₁

/-- Record a trace event (not a driver call: consumes no fault). -/
def note (e : Ev) : M Unit := fun s => (.ok (), { s with trace := s.trace ++ [e] })

/-- A driver call: consumes the head of the fault schedule; on a fault the
call throws and the store is untouched, otherwise `f` gives the call's
result and effect. -/
def dbOp (f : DbState → α × DbState) : M α := fun s =>
  match s.faults with
  | some e :: rest => (.error e, { s with faults := rest })
  | none :: rest =>
      let (a, s₁) := f { s with faults := rest }
      (.ok a, s₁)
  | [] =>
      let (a, s₁) := f s
      (.ok a, s₁)

/-- `migrationsRun = n` (assignment to the engine's local counter). -/
def setRun (n : Nat) : M Unit := fun s => (.ok (), { s with runCounter := n })

/-- `migrationsRun++`. -/
def incRun : M Unit := fun s => (.ok (), { s with runCounter := s.runCounter + 1 })

/-- Read the counter for building the returned result. -/
def getRun : M Nat := fun s => (.ok s.runCounter, s)

/-- `this.dbConnection.collection.findOne({ _id: 'control' })`. -/
def findControl : M (Option ControlDocument) := dbOp fun s => (s.control, s)

/-- `updateOne({ _id: 'control' }, { $set: controlDoc }, { upsert: true })`. -/
def upsertControl (c : ControlDocument) : M Unit :=
  dbOp fun s => ((), { s with control := some c })

/-- The lock update
`updateOne({ _id: 'control', locked: false }, { $set: { locked: true, lockedAt: new Date() } })`;
the returned `Bool` is `modifiedCount === 1`: true exactly when an unlocked
control document was matched and flipped. -/
def lockUpdate : M Bool := dbOp fun s =>
  match s.control with
  | some c =>
      if c.locked then (false, s)
      else (true, { s with control := some { c with locked := true } })
  | none => (false, s)

/-- `updateOne({ _id: 'control' }, { $set: { locked: false } })`. -/
def unlockUpdate : M Unit :=
  dbOp fun s => ((), { s with control := s.control.map fun c => { c with locked := false } })

/-- `updateOne({ _id: 'control' }, { $set: { version } })`. -/
def versionUpdate (v : Int) : M Unit :=
  dbOp fun s => ((), { s with control := s.control.map fun c => { c with version := v } })

/-- JS strict equality `a === b` on numbers where either side may be `NaN`
(`none`): `NaN` is unequal to everything, itself included. -/
def jsEq (a b : Option Int) : Bool :=
  match a, b with
  | some x, some y => x == y
  | _, _ => false

/-- JS `<` on numbers where either side may be `NaN`: any comparison with
`NaN` is false. -/
def jsLt (a b : Option Int) : Bool :=
  match a, b with
  | some x, some y => decide (x < y)
  | _, _ => false

/-- `this.migrations[i]` for a JS array index that may be negative. -/
def jsIndex (migs : List Migration) (i : Int) : Option Migration :=
  if i < 0 then none else migs.get? i.toNat

/-- The registry order: `sort((a, b) => a.version - b.version)`. -/
def byVersion (a b : Migration) : Prop := a.version ≤ b.version

instance : DecidableRel byVersion := fun a b => Int.decLe a.version b.version

instance : IsTotal Migration byVersion := ⟨fun a b => Int.le_total a.version b.version⟩

instance : IsTrans Migration byVersion := ⟨fun _ _ _ h h' => Int.le_trans h h'⟩

/-- `Migrations.add` (migrations.ts lines 92-110).  The
`typeof migration.version !== 'number'` check cannot fail in the embedding
(versions are `Int` by type) and is omitted; `Object.freeze` is the identity
on an immutable value.  JS `Array.prototype.sort` is stable (ES2019), so it
computes the unique stable sort by version, here `insertionSort`. -/
def add (migs : List Migration) (m : Migration) : Except JsError (List Migration) :=
  if m.up = none then .error .noUpFunction
  else if m.version ≤ 0 then .error .versionNotPositive
  else .ok ((migs ++ [m]).insertionSort byVersion)

/-- `Migrations.findIndexByVersion` (lines 360-369): version `0` maps to the
synthetic index `-1`; otherwise the first index whose version strictly equals
the argument, or a thrown not-found error. -/
def findIndexByVersion (migs : List Migration) (version : Option Int) : Except JsError Int :=
  if jsEq version (some 0) then .ok (-1)
  else
    match migs.findIdx? (fun m => jsEq (some m.version) version) with
    | some i => .ok (i : Int)
    | none => .error (.notFound version)

/-- `Migrations._setControl` (specialised to the one call site). -/
def _setControl (version : Int) (locked : Bool) : M ControlDocument := do
  upsertControl ⟨version, locked⟩
  pure ⟨version, locked⟩

/-- `Migrations._getControl`: read the control document, lazily creating
`{version: 0, locked: false}` when absent. -/
def _getControl : M ControlDocument := do
  let c ← findControl
  match c with
  | some ctrl => pure ctrl
  | none => _setControl 0 false

/-- `Migrations.lock` (lines 301-314). -/
def lock : M Bool := do
  note .lockAttempt
  lockUpdate

/-- `Migrations.unlock` (the engine's own release; lines 153-162). -/
def unlock : M Unit := do
  note .unlockAttempt
  unlockUpdate

/-- `Migrations.updateVersion` (lines 316-325); the `persist` event records
the successful write. -/
def updateVersion (v : Int) : M Unit := do
  versionUpdate v
  note (.persist v)

/-- `Migrations.runMigration` (lines 285-299): look the migration up by
index, check the directional action is a function, then invoke it (the
`run` event marks the invocation). -/
def runMigration (migs : List Migration) (dir : Dir) (idx : Int) : M Unit :=
  match jsIndex migs idx with
  | none => M.throw (.indexNotFound idx)
  | some m =>
      match (match dir with | .up => m.up | .down => m.down) with
      | none => M.throw (.cannotMigrate dir m.version)
      | some outcome => do
          note (.run dir m.version)
          match outcome with
          | none => M.pure ()
          | some e => M.throw e

/-- Body-count form of the source's
`for (let i = startIdx + 1; i <= endIdx; i++)` (lines 240-248): the body
never changes `i` or `endIdx`, so the iteration count is fixed on entry and
the loop is structural recursion on it. -/
def upLoopN (migs : List Migration) : Nat → Int → M Unit
  | 0, _ => M.pure ()
  | n + 1, i => do
      runMigration migs .up i
      -- const migration = this.migrations[i]; if (migration) { ... }
      (match jsIndex migs i with
       | some m => updateVersion m.version
       | none => M.pure ())
      incRun
      upLoopN migs n (i + 1)

def upLoop (migs : List Migration) (endIdx startI : Int) : M Unit :=
  upLoopN migs (endIdx + 1 - startI).toNat startI

/-- Body-count form of `for (let i = startIdx; i > targetIdx; i--)`
(lines 252-258). -/
def downLoopN (migs : List Migration) : Nat → Int → M Unit
  | 0, _ => M.pure ()
  | n + 1, i => do
      runMigration migs .down i
      -- const prevMigration = this.migrations[i - 1];
      -- currentVersion = prevMigration?.version ?? 0; await updateVersion(currentVersion)
      updateVersion (((jsIndex migs (i - 1)).map Migration.version).getD 0)
      incRun
      downLoopN migs n (i - 1)

def downLoop (migs : List Migration) (targetIdx startI : Int) : M Unit :=
  downLoopN migs (startI - targetIdx).toNat startI

/-- `Migrations._migrateTo` (lines 192-283).  `version` is the resolved
target (a JS number, `none` = `NaN`); `migs` is the sorted registry. -/
def _migrateTo (migs : List Migration) (version : Option Int) (rerun : Bool) :
    M MigrationResult := do
  let control ← _getControl
  let currentVersion := control.version
  setRun 0
  if !rerun && jsEq (some currentVersion) version then
    -- fast path: log (conditional on logIfLatest) and return without locking
    M.pure { success := true, fromVersion := currentVersion, toVersion := version,
             migrationsRun := 0 }
  else do
    let gotLock ← lock
    if !gotLock then
      M.pure { success := false, fromVersion := currentVersion, toVersion := version,
               migrationsRun := 0, error := some .lockHeld }
    else
      M.tryCatch
        (do
          (if rerun then do
              let idx ← M.ofExcept (findIndexByVersion migs version)
              runMigration migs .up idx
              setRun 1
            else do
              let startIdx ← M.ofExcept (findIndexByVersion migs (some currentVersion))
              let endIdx ← M.ofExcept (findIndexByVersion migs version)
              -- the 'Migrating from version ...' log line is omitted
              if jsLt (some currentVersion) version then
                upLoop migs endIdx (startIdx + 1)
              else
                -- const targetIdx = endIdx === -1 ? -1 : endIdx  (identity)
                downLoop migs endIdx startIdx)
          unlock
          let n ← getRun
          M.pure { success := true, fromVersion := control.version, toVersion := version,
                   migrationsRun := n })
        (fun e => do
          unlock
          let n ← getRun
          M.pure { success := false, fromVersion := control.version, toVersion := version,
                   migrationsRun := n, error := some e })

/-- A `migrateTo` argument: `string | number`. -/
inductive Command
  | num (v : Int)
  | str (st : String)
  deriving DecidableEq, Repr

/-- The version part of a parsed command: `number | 'latest'` where the
number may be `NaN` (non-numeric string parsed with `parseInt`). -/
inductive CmdVersion
  | latest
  | num (v : Int)
  | nan
  deriving DecidableEq, Repr

/-- `interface MigrationCommand`; the subcommand is stored as the raw second
part of the string (the source casts without checking). -/
structure MigrationCommand where
  version : CmdVersion
  subcommand : Option String := none
  deriving DecidableEq, Repr

/-- JS `parseInt(s, 10)`: optional sign then a leading run of decimal digits
(trailing garbage ignored); no digits means `NaN` (`none`). -/
def parseIntJs (s : String) : Option Int :=
  let core : List Char → Option Nat := fun l =>
    let digits := l.takeWhile Char.isDigit
    if digits.isEmpty then none
    else some (digits.foldl (fun acc c => acc * 10 + (c.toNat - 48)) 0)
  match s.data with
  | '-' :: r => (core r).map fun n => -(n : Int)
  | '+' :: r => (core r).map fun n => (n : Int)
  | r => (core r).map fun n => (n : Int)

/-- JS `split(',')` on the character list: split at every comma, keeping
empty segments (`""` splits to `[""]`). -/
def splitOnCommaChars : List Char → List (List Char)
  | [] => [[]]
  | c :: rest =>
      let r := splitOnCommaChars rest
      if c = ',' then [] :: r
      else
        match r with
        | h :: t => (c :: h) :: t
        | [] => [[c]]

/-- JS `String.prototype.split(',')`. -/
def splitOnComma (st : String) : List String :=
  (splitOnCommaChars st.data).map String.mk

/-- JS `String.prototype.trim()`: strip whitespace from both ends. -/
def trimJs (st : String) : String :=
  String.mk (((st.data.dropWhile Char.isWhitespace).reverse.dropWhile
    Char.isWhitespace).reverse)

/-- `Migrations.parseCommand` (lines 177-190). -/
def parseCommand : Command → MigrationCommand
  | .num v => { version := .num v }
  | .str st =>
      let parts := splitOnComma st
      let version := trimJs ((parts.get? 0).getD "")
      let subcommand := (parts.get? 1).map trimJs
      { version :=
          if version = "latest" then .latest
          else match parseIntJs version with
               | some n => .num n
               | none => .nan,
        subcommand := subcommand }

/-- `Migrations.migrateTo` (lines 115-136).  `configured` models whether
`setDatabase` was called.  `process.exit(0)` is modelled as a trace event
(in reality the promise never resolves past it). -/
def migrateTo (configured : Bool) (migs : List Migration) (command : Command) :
    M MigrationResult := do
  if !configured then M.throw .notConfigured
  else if command = Command.str "" ∨ migs = [] then M.throw .invalidCommand
  else
    let parsed := parseCommand command
    let targetVersion : Option Int :=
      match parsed.version with
      | .latest => some (((migs.getLast?).map Migration.version).getD 0)
      | .num v => some v
      | .nan => none
    let result ← _migrateTo migs targetVersion (parsed.subcommand = some "rerun")
    if parsed.subcommand = some "exit" then do
      note .processExit
      M.pure result
    else
      M.pure result

/-- The registry invariant maintained by `add` on unique versions: strictly
ascending version order. -/
def sortedStrict (migs : List Migration) : Prop :=
  migs.Pairwise fun a b => a.version < b.version

/-- All registered versions are positive (enforced by `add`). -/
def allPositive (migs : List Migration) : Prop :=
  ∀ m ∈ migs, 0 < m.version

/-- The action a direction selects. -/
def actionOf (m : Migration) : Dir → Option (Option JsError)
  | .up => m.up
  | .down => m.down

/-- Forward events per migration: invoke `up`, then persist that version. -/
def upSteps : List Migration → List Ev
  | [] => []
  | m :: l => .run .up m.version :: .persist m.version :: upSteps l

/-- Version of the last element of `l`, or the default `d`. -/
def lastVer (l : List Migration) (d : Int) : Int :=
  ((l.getLast?).map Migration.version).getD d

/-- Version of the first element of `l`, or the default `b`. -/
def headVer (l : List Migration) (b : Int) : Int :=
  ((l.head?).map Migration.version).getD b

/-- Backward events for a visit-order (descending) list `dl`: invoke `down`,
then persist the version of the next migration to be visited — that is the
preceding migration in registry order — or `b` (the version at the target
index) when `dl` is exhausted. -/
def downEvsDesc (b : Int) : List Migration → List Ev
  | [] => []
  | m :: rest => .run .down m.version :: .persist (headVer rest b) :: downEvsDesc b rest

/-- The migrations a forward walk from `lo` (exclusive) to `hi` (inclusive)
visits: version strictly greater than `lo` and at most `hi`. -/
def inRange (lo hi : Int) (m : Migration) : Bool :=
  decide (lo < m.version) && decide (m.version ≤ hi)

/-- Versions of `up` invocations in a trace, in order. -/
def upsOf (t : List Ev) : List Int :=
  t.filterMap fun e =>
    match e with
    | .run .up v => some v
    | _ => none

/-- Versions of `down` invocations in a trace, in order. -/
def downsOf (t : List Ev) : List Int :=
  t.filterMap fun e =>
    match e with
    | .run .down v => some v
    | _ => none

/-- Three reversible demo migrations (versions 1, 2, 3), all actions resolve. -/
def demo3 : List Migration :=
  [{ version := 1, up := some none, down := some none },
   { version := 2, up := some none, down := some none },
   { version := 3, up := some none, down := some none }]

/-- A fresh fault-free store at version `v`, unlocked, empty trace. -/
def store (v : Int) : DbState := { control := some ⟨v, false⟩ }

/-! ## Execution lemmas for the monad and the primitive operations -/

theorem bind_ok {α β : Type} {x : M α} {a : α} {s s₁ : DbState}
    (h : x s = (.ok a, s₁)) (f : α → M β) : (x >>= f) s = f a s₁ := by
  show M.bind x f s = _
  unfold M.bind
  rw [h]

theorem bind_error {α β : Type} {x : M α} {e : JsError} {s s₁ : DbState}
    (h : x s = (.error e, s₁)) (f : α → M β) : (x >>= f) s = (.error e, s₁) := by
  show M.bind x f s = _
  unfold M.bind
  rw [h]

theorem pure_apply {α : Type} (a : α) (s : DbState) :
    (Pure.pure a : M α) s = (.ok a, s) := rfl

theorem bind_apply {α β : Type} (x : M α) (f : α → M β) (s : DbState) :
    (x >>= f) s =
      match x s with
      | (.ok a, s₁) => f a s₁
      | (.error e, s₁) => (.error e, s₁) := rfl

theorem note_apply (e : Ev) (s : DbState) :
    note e s = (.ok (), { s with trace := s.trace ++ [e] }) := rfl

theorem setRun_apply (n : Nat) (s : DbState) :
    setRun n s = (.ok (), { s with runCounter := n }) := rfl

theorem incRun_apply (s : DbState) :
    incRun s = (.ok (), { s with runCounter := s.runCounter + 1 }) := rfl

theorem getRun_apply (s : DbState) : getRun s = (.ok s.runCounter, s) := rfl

theorem throw_apply {α : Type} (e : JsError) (s : DbState) :
    (M.throw e : M α) s = (.error e, s) := rfl

theorem tryCatch_ok {α : Type} {x : M α} {a : α} {s s₁ : DbState}
    (h : x s = (.ok a, s₁)) (handler : JsError → M α) :
    M.tryCatch x handler s = (.ok a, s₁) := by
  unfold M.tryCatch
  rw [h]

theorem tryCatch_error {α : Type} {x : M α} {e : JsError} {s s₁ : DbState}
    (h : x s = (.error e, s₁)) (handler : JsError → M α) :
    M.tryCatch x handler s = handler e s₁ := by
  unfold M.tryCatch
  rw [h]

theorem dbOp_apply {α : Type} (f : DbState → α × DbState) {s : DbState}
    (hf : s.faults = []) : dbOp f s = (.ok (f s).1, (f s).2) := by
  unfold dbOp
  rw [hf]

theorem _getControl_apply {s : DbState} {c : ControlDocument}
    (hf : s.faults = []) (hc : s.control = some c) : _getControl s = (.ok c, s) := by
  unfold _getControl findControl
  rw [bind_ok (dbOp_apply _ hf)]
  simp [hc, pure_apply]

theorem lock_acquired {s : DbState} {v : Int}
    (hf : s.faults = []) (hc : s.control = some ⟨v, false⟩) :
    lock s = (.ok true,
      { s with control := some ⟨v, true⟩, trace := s.trace ++ [.lockAttempt] }) := by
  unfold lock
  rw [bind_ok (note_apply _ _)]
  unfold lockUpdate
  rw [dbOp_apply _ (by simp [hf])]
  simp [hc]

theorem lock_denied {s : DbState} {v : Int}
    (hf : s.faults = []) (hc : s.control = some ⟨v, true⟩) :
    lock s = (.ok false, { s with trace := s.trace ++ [.lockAttempt] }) := by
  unfold lock
  rw [bind_ok (note_apply _ _)]
  unfold lockUpdate
  rw [dbOp_apply _ (by simp [hf])]
  simp [hc]

theorem unlock_apply {s : DbState} (hf : s.faults = []) :
    unlock s = (.ok (),
      { s with control := s.control.map fun c => { c with locked := false },
               trace := s.trace ++ [.unlockAttempt] }) := by
  unfold unlock
  rw [bind_ok (note_apply _ _)]
  unfold unlockUpdate
  rw [dbOp_apply _ (by simp [hf])]

theorem updateVersion_apply (v : Int) {s : DbState} (hf : s.faults = []) :
    updateVersion v s = (.ok (),
      { s with control := s.control.map fun c => { c with version := v },
               trace := s.trace ++ [.persist v] }) := by
  unfold updateVersion versionUpdate
  rw [bind_ok (dbOp_apply _ hf)]
  rfl

theorem runMigration_ok {migs : List Migration} {dir : Dir} {i : Int} {m : Migration}
    (hm : jsIndex migs i = some m) (hact : actionOf m dir = some none) (s : DbState) :
    runMigration migs dir i s = (.ok (), { s with trace := s.trace ++ [.run dir m.version] }) := by
  cases dir <;> simp only [actionOf] at hact <;>
    simp [runMigration, hm, hact, bind_apply, note_apply, M.pure]

theorem runMigration_throws {migs : List Migration} {dir : Dir} {i : Int} {m : Migration}
    {e : JsError} (hm : jsIndex migs i = some m) (hact : actionOf m dir = some (some e))
    (s : DbState) :
    runMigration migs dir i s =
      (.error e, { s with trace := s.trace ++ [.run dir m.version] }) := by
  cases dir <;> simp only [actionOf] at hact <;>
    simp [runMigration, hm, hact, bind_apply, note_apply, M.throw]

theorem runMigration_noAction {migs : List Migration} {dir : Dir} {i : Int} {m : Migration}
    (hm : jsIndex migs i = some m) (hact : actionOf m dir = none) (s : DbState) :
    runMigration migs dir i s = (.error (.cannotMigrate dir m.version), s) := by
  cases dir <;> simp only [actionOf] at hact <;>
    simp [runMigration, hm, hact, M.throw]

/-! ## Loop characterisation -/

theorem lastVer_cons (m : Migration) (l : List Migration) (d : Int) :
    lastVer (m :: l) d = lastVer l m.version := by
  cases l with
  | nil => simp [lastVer]
  | cons x t =>
      simp only [lastVer, List.getLast?_cons_cons]
      cases h : (x :: t).getLast? with
      | none => simp at h
      | some y => simp [h]

theorem upLoopN_ok (migs : List Migration) :
    ∀ (l : List Migration) (i : Int) (s : DbState) (c : ControlDocument),
      s.faults = [] → s.control = some c →
      (∀ k : Nat, k < l.length → jsIndex migs (i + k) = l.get? k) →
      (∀ m ∈ l, m.up = some none) →
      upLoopN migs l.length i s =
        (.ok (), { s with
          control := some { c with version := lastVer l c.version },
          trace := s.trace ++ upSteps l,
          runCounter := s.runCounter + l.length })
  | [], i, s, c, hf, hc, _, _ => by
      simp [upLoopN, M.pure, lastVer, upSteps, ← hc]
  | m :: l, i, s, c, hf, hc, hw, hup => by
      have hup0 : m.up = some none := hup m (by simp)
      have hm : jsIndex migs i = some m := by simpa using hw 0 (by simp)
      have hw' : ∀ k : Nat, k < l.length → jsIndex migs (i + 1 + k) = l.get? k := by
        intro k hk
        have h := hw (k + 1) (by simpa using Nat.succ_lt_succ hk)
        have harith : i + ((k + 1 : Nat) : Int) = i + 1 + (k : Nat) := by push_cast; ring
        rw [harith] at h
        simpa using h
      have h1 : runMigration migs .up i s =
          (.ok (), { s with trace := s.trace ++ [.run .up m.version] }) :=
        runMigration_ok hm (by simp [actionOf, hup0]) s
      have h2 : updateVersion m.version { s with trace := s.trace ++ [.run .up m.version] } =
          (.ok (), { s with
            control := some { c with version := m.version },
            trace := s.trace ++ [.run .up m.version, .persist m.version] }) := by
        rw [updateVersion_apply m.version (by simpa using hf)]
        simp [hc]
      have h3 := incRun_apply { s with
        control := some { c with version := m.version },
        trace := s.trace ++ [.run .up m.version, .persist m.version] }
      have IH := upLoopN_ok migs l (i + 1)
        { s with
          control := some { c with version := m.version },
          trace := s.trace ++ [.run .up m.version, .persist m.version],
          runCounter := s.runCounter + 1 }
        { c with version := m.version }
        (by simpa using hf) (by simp)
        hw' (fun m' hm' => hup m' (by simp [hm']))
      simp only [List.length_cons, upLoopN]
      rw [bind_ok h1]
      rw [hm]
      rw [bind_ok h2]
      rw [bind_ok h3]
      rw [IH]
      simp [upSteps, lastVer_cons]
      omega

theorem dbOp_consume {α : Type} (f : DbState → α × DbState) {s : DbState}
    {rest : List (Option JsError)} (hf : s.faults = none :: rest) :
    dbOp f s = (.ok (f { s with faults := rest }).1, (f { s with faults := rest }).2) := by
  unfold dbOp
  rw [hf]

theorem dbOp_fault {α : Type} (f : DbState → α × DbState) {s : DbState} {e : JsError}
    {rest : List (Option JsError)} (hf : s.faults = some e :: rest) :
    (dbOp f : M α) s = (.error e, { s with faults := rest }) := by
  unfold dbOp
  rw [hf]

theorem updateVersion_consume (v : Int) {s : DbState} {rest : List (Option JsError)}
    (hf : s.faults = none :: rest) :
    updateVersion v s = (.ok (), { s with
      faults := rest,
      control := s.control.map fun c => { c with version := v },
      trace := s.trace ++ [.persist v] }) := by
  unfold updateVersion
  have h1 : versionUpdate v s = (.ok (), { s with
      faults := rest,
      control := s.control.map fun c => { c with version := v } }) := by
    unfold versionUpdate
    rw [dbOp_consume _ hf]
  rw [bind_ok h1]
  rfl

theorem updateVersion_fault (v : Int) {s : DbState} {e : JsError}
    {rest : List (Option JsError)} (hf : s.faults = some e :: rest) :
    updateVersion v s = (.error e, { s with faults := rest }) := by
  unfold updateVersion
  have h1 : versionUpdate v s = (.error e, { s with faults := rest }) := by
    unfold versionUpdate
    rw [dbOp_fault _ hf]
  rw [bind_error h1]

/-- A forward run that stops when the action of `bad` throws `e`, after the
migrations of `done` all succeeded. -/
theorem upLoopN_actionFail (migs : List Migration) :
    ∀ (done : List Migration) (bad : Migration) (e : JsError) (n : Nat) (i : Int)
      (s : DbState) (c : ControlDocument),
      s.faults = [] → s.control = some c →
      (∀ k : Nat, k < (done ++ [bad]).length → jsIndex migs (i + k) = (done ++ [bad]).get? k) →
      (∀ m ∈ done, m.up = some none) → bad.up = some (some e) →
      done.length < n →
      upLoopN migs n i s =
        (.error e, { s with
          control := some { c with version := lastVer done c.version },
          trace := s.trace ++ upSteps done ++ [.run .up bad.version],
          runCounter := s.runCounter + done.length })
  | [], bad, e, n, i, s, c, hf, hc, hw, _, hbad, hn => by
      cases n with
      | zero => omega
      | succ n' =>
          have hm : jsIndex migs i = some bad := by simpa using hw 0 (by simp)
          have h1 : runMigration migs .up i s =
              (.error e, { s with trace := s.trace ++ [.run .up bad.version] }) :=
            runMigration_throws hm (by simp [actionOf, hbad]) s
          rw [upLoopN]
          rw [bind_error h1]
          simp [upSteps, lastVer, ← hc]
  | m :: done, bad, e, n, i, s, c, hf, hc, hw, hup, hbad, hn => by
      cases n with
      | zero => omega
      | succ n' =>
          have hup0 : m.up = some none := hup m (by simp)
          have hm : jsIndex migs i = some m := by simpa using hw 0 (by simp)
          have hw' : ∀ k : Nat, k < (done ++ [bad]).length →
              jsIndex migs (i + 1 + k) = (done ++ [bad]).get? k := by
            intro k hk
            have h := hw (k + 1) (by simpa using Nat.succ_lt_succ hk)
            have harith : i + ((k + 1 : Nat) : Int) = i + 1 + (k : Nat) := by push_cast; ring
            rw [harith] at h
            simpa using h
          have h1 : runMigration migs .up i s =
              (.ok (), { s with trace := s.trace ++ [.run .up m.version] }) :=
            runMigration_ok hm (by simp [actionOf, hup0]) s
          have h2 : updateVersion m.version { s with trace := s.trace ++ [.run .up m.version] } =
              (.ok (), { s with
                control := some { c with version := m.version },
                trace := s.trace ++ [.run .up m.version, .persist m.version] }) := by
            rw [updateVersion_apply m.version (by simpa using hf)]
            simp [hc]
          have h3 := incRun_apply { s with
            control := some { c with version := m.version },
            trace := s.trace ++ [.run .up m.version, .persist m.version] }
          have IH := upLoopN_actionFail migs done bad e n' (i + 1)
            { s with
              control := some { c with version := m.version },
              trace := s.trace ++ [.run .up m.version, .persist m.version],
              runCounter := s.runCounter + 1 }
            { c with version := m.version }
            (by simpa using hf) (by simp)
            hw' (fun m' hm' => hup m' (by simp [hm'])) hbad (by simp only [List.length_cons] at hn; omega)
          rw [upLoopN]
          rw [bind_ok h1]
          rw [hm]
          rw [bind_ok h2]
          rw [bind_ok h3]
          rw [IH]
          simp [upSteps, lastVer_cons]
          omega

/-- A forward run that stops when the per-step persist of `bad`'s version
faults with the database error `e` (the actions themselves all resolve). -/
theorem upLoopN_persistFault (migs : List Migration) :
    ∀ (done : List Migration) (bad : Migration) (e : JsError)
      (rest : List (Option JsError)) (n : Nat) (i : Int) (s : DbState) (c : ControlDocument),
      s.faults = List.replicate done.length none ++ some e :: rest →
      s.control = some c →
      (∀ k : Nat, k < (done ++ [bad]).length → jsIndex migs (i + k) = (done ++ [bad]).get? k) →
      (∀ m ∈ done, m.up = some none) → bad.up = some none →
      done.length < n →
      upLoopN migs n i s =
        (.error e, { s with
          faults := rest,
          control := some { c with version := lastVer done c.version },
          trace := s.trace ++ upSteps done ++ [.run .up bad.version],
          runCounter := s.runCounter + done.length })
  | [], bad, e, rest, n, i, s, c, hf, hc, hw, _, hbad, hn => by
      cases n with
      | zero => omega
      | succ n' =>
          have hm : jsIndex migs i = some bad := by simpa using hw 0 (by simp)
          have h1 : runMigration migs .up i s =
              (.ok (), { s with trace := s.trace ++ [.run .up bad.version] }) :=
            runMigration_ok hm (by simp [actionOf, hbad]) s
          have h2 : updateVersion bad.version { s with trace := s.trace ++ [.run .up bad.version] } =
              (.error e, { s with
                faults := rest,
                trace := s.trace ++ [.run .up bad.version] }) := by
            rw [updateVersion_fault bad.version (by simpa using hf)]
          rw [upLoopN]
          rw [bind_ok h1]
          rw [hm]
          rw [bind_error h2]
          simp [upSteps, lastVer, ← hc]
  | m :: done, bad, e, rest, n, i, s, c, hf, hc, hw, hup, hbad, hn => by
      cases n with
      | zero => omega
      | succ n' =>
          have hup0 : m.up = some none := hup m (by simp)
          have hm : jsIndex migs i = some m := by simpa using hw 0 (by simp)
          have hw' : ∀ k : Nat, k < (done ++ [bad]).length →
              jsIndex migs (i + 1 + k) = (done ++ [bad]).get? k := by
            intro k hk
            have h := hw (k + 1) (by simpa using Nat.succ_lt_succ hk)
            have harith : i + ((k + 1 : Nat) : Int) = i + 1 + (k : Nat) := by push_cast; ring
            rw [harith] at h
            simpa using h
          have h1 : runMigration migs .up i s =
              (.ok (), { s with trace := s.trace ++ [.run .up m.version] }) :=
            runMigration_ok hm (by simp [actionOf, hup0]) s
          have h2 : updateVersion m.version { s with trace := s.trace ++ [.run .up m.version] } =
              (.ok (), { s with
                faults := List.replicate done.length none ++ some e :: rest,
                control := some { c with version := m.version },
                trace := s.trace ++ [.run .up m.version, .persist m.version] }) := by
            rw [updateVersion_consume m.version (by simpa using hf)]
            simp [hc]
          have h3 := incRun_apply { s with
            faults := List.replicate done.length none ++ some e :: rest,
            control := some { c with version := m.version },
            trace := s.trace ++ [.run .up m.version, .persist m.version] }
          have IH := upLoopN_persistFault migs done bad e rest n' (i + 1)
            { s with
              faults := List.replicate done.length none ++ some e :: rest,
              control := some { c with version := m.version },
              trace := s.trace ++ [.run .up m.version, .persist m.version],
              runCounter := s.runCounter + 1 }
            { c with version := m.version }
            (by simp) (by simp)
            hw' (fun m' hm' => hup m' (by simp [hm'])) hbad (by simp only [List.length_cons] at hn; omega)
          rw [upLoopN]
          rw [bind_ok h1]
          rw [hm]
          rw [bind_ok h2]
          rw [bind_ok h3]
          rw [IH]
          simp [upSteps, lastVer_cons]
          omega

/-- A backward run over visit-order list `dl` (indices `i, i-1, ...`) whose
`down` actions all resolve.  `b` is the version recorded at index
`i - dl.length` (or `0` when that index is `-1`), which is the final persisted
version when any step runs. -/
theorem downLoopN_ok (migs : List Migration) :
    ∀ (dl : List Migration) (i : Int) (s : DbState) (c : ControlDocument) (b : Int),
      s.faults = [] → s.control = some c →
      (∀ k : Nat, k < dl.length → jsIndex migs (i - k) = dl.get? k) →
      ((jsIndex migs (i - dl.length)).map Migration.version).getD 0 = b →
      (∀ m ∈ dl, m.down = some none) →
      downLoopN migs dl.length i s =
        (.ok (), { s with
          control := some { c with version := if dl.isEmpty then c.version else b },
          trace := s.trace ++ downEvsDesc b dl,
          runCounter := s.runCounter + dl.length })
  | [], i, s, c, b, hf, hc, _, _, _ => by
      simp [downLoopN, M.pure, downEvsDesc, ← hc]
  | m :: dl, i, s, c, b, hf, hc, hw, hb, hdown => by
      have hdown0 : m.down = some none := hdown m (by simp)
      have hm : jsIndex migs i = some m := by simpa using hw 0 (by simp)
      have hw' : ∀ k : Nat, k < dl.length → jsIndex migs (i - 1 - k) = dl.get? k := by
        intro k hk
        have h := hw (k + 1) (by simpa using Nat.succ_lt_succ hk)
        have harith : i - ((k + 1 : Nat) : Int) = i - 1 - (k : Nat) := by push_cast; ring
        rw [harith] at h
        simpa using h
      have hb' : ((jsIndex migs (i - 1 - dl.length)).map Migration.version).getD 0 = b := by
        have harith : i - 1 - (dl.length : Int) = i - ((m :: dl).length : Nat) := by
          push_cast; simp; ring
        rw [harith]
        exact hb
      have hv : ((jsIndex migs (i - 1)).map Migration.version).getD 0 = headVer dl b := by
        cases dl with
        | nil =>
            have harith : i - (1 : Int) = i - (([m] : List Migration).length : Nat) := by simp
            rw [← harith] at hb
            simpa [headVer] using hb
        | cons m' t =>
            have h := hw 1 (by simp)
            have harith : i - ((1 : Nat) : Int) = i - 1 := by simp
            rw [harith] at h
            rw [h]
            simp [headVer]
      have h1 : runMigration migs .down i s =
          (.ok (), { s with trace := s.trace ++ [.run .down m.version] }) :=
        runMigration_ok hm (by simp [actionOf, hdown0]) s
      have h2 : updateVersion (((jsIndex migs (i - 1)).map Migration.version).getD 0)
            { s with trace := s.trace ++ [.run .down m.version] } =
          (.ok (), { s with
            control := some { c with version := headVer dl b },
            trace := s.trace ++ [.run .down m.version, .persist (headVer dl b)] }) := by
        rw [hv, updateVersion_apply _ (by simpa using hf)]
        simp [hc]
      have h3 := incRun_apply { s with
        control := some { c with version := headVer dl b },
        trace := s.trace ++ [.run .down m.version, .persist (headVer dl b)] }
      have IH := downLoopN_ok migs dl (i - 1)
        { s with
          control := some { c with version := headVer dl b },
          trace := s.trace ++ [.run .down m.version, .persist (headVer dl b)],
          runCounter := s.runCounter + 1 }
        { c with version := headVer dl b } b
        (by simpa using hf) (by simp)
        hw' hb' (fun m' hm' => hdown m' (by simp [hm']))
      simp only [List.length_cons, downLoopN]
      rw [bind_ok h1]
      rw [bind_ok h2]
      rw [bind_ok h3]
      rw [IH]
      cases dl with
      | nil => simp [downEvsDesc, headVer]; try omega
      | cons m' t => simp [downEvsDesc]; try omega

/-- A backward run that stops at `bad` (visited after the migrations of
`doneD`, whose `down` actions all resolve): either `bad` has no `down`
action (`UnsupportedDirection`: no step event, error `cannotMigrate`) or its
`down` action throws `e` (step event recorded, error `e`). -/
theorem downLoopN_fail (migs : List Migration) :
    ∀ (doneD : List Migration) (bad : Migration) (err : JsError) (evs : List Ev)
      (n : Nat) (i : Int) (s : DbState) (c : ControlDocument),
      s.faults = [] → s.control = some c →
      (∀ k : Nat, k < (doneD ++ [bad]).length → jsIndex migs (i - k) = (doneD ++ [bad]).get? k) →
      (∀ m ∈ doneD, m.down = some none) →
      ((bad.down = none ∧ err = .cannotMigrate .down bad.version ∧ evs = []) ∨
        (bad.down = some (some err) ∧ evs = [.run .down bad.version])) →
      doneD.length < n →
      downLoopN migs n i s =
        (.error err, { s with
          control := some { c with version := if doneD.isEmpty then c.version else bad.version },
          trace := s.trace ++ downEvsDesc bad.version doneD ++ evs,
          runCounter := s.runCounter + doneD.length })
  | [], bad, err, evs, n, i, s, c, hf, hc, hw, _, hbad, hn => by
      cases n with
      | zero => omega
      | succ n' =>
          have hm : jsIndex migs i = some bad := by simpa using hw 0 (by simp)
          rcases hbad with ⟨hdn, herr, hevs⟩ | ⟨hdn, hevs⟩
          · have h1 : runMigration migs .down i s =
                (.error (.cannotMigrate .down bad.version), s) :=
              runMigration_noAction hm (by simp [actionOf, hdn]) s
            rw [downLoopN]
            rw [bind_error h1]
            simp [downEvsDesc, herr, hevs, ← hc]
          · have h1 : runMigration migs .down i s =
                (.error err, { s with trace := s.trace ++ [.run .down bad.version] }) :=
              runMigration_throws hm (by simp [actionOf, hdn]) s
            rw [downLoopN]
            rw [bind_error h1]
            simp [downEvsDesc, hevs, ← hc]
  | m :: doneD, bad, err, evs, n, i, s, c, hf, hc, hw, hdone, hbad, hn => by
      cases n with
      | zero => omega
      | succ n' =>
          have hdown0 : m.down = some none := hdone m (by simp)
          have hm : jsIndex migs i = some m := by simpa using hw 0 (by simp)
          have hw' : ∀ k : Nat, k < (doneD ++ [bad]).length →
              jsIndex migs (i - 1 - k) = (doneD ++ [bad]).get? k := by
            intro k hk
            have h := hw (k + 1) (by simpa using Nat.succ_lt_succ hk)
            have harith : i - ((k + 1 : Nat) : Int) = i - 1 - (k : Nat) := by push_cast; ring
            rw [harith] at h
            simpa using h
          have hv : ((jsIndex migs (i - 1)).map Migration.version).getD 0 =
              headVer doneD bad.version := by
            cases doneD with
            | nil =>
                have h := hw 1 (by simp)
                have harith : i - ((1 : Nat) : Int) = i - 1 := by simp
                rw [harith] at h
                rw [h]
                simp [headVer]
            | cons m' t =>
                have h := hw 1 (by simp)
                have harith : i - ((1 : Nat) : Int) = i - 1 := by simp
                rw [harith] at h
                rw [h]
                simp [headVer]
          have h1 : runMigration migs .down i s =
              (.ok (), { s with trace := s.trace ++ [.run .down m.version] }) :=
            runMigration_ok hm (by simp [actionOf, hdown0]) s
          have h2 : updateVersion (((jsIndex migs (i - 1)).map Migration.version).getD 0)
                { s with trace := s.trace ++ [.run .down m.version] } =
              (.ok (), { s with
                control := some { c with version := headVer doneD bad.version },
                trace := s.trace ++ [.run .down m.version,
                  .persist (headVer doneD bad.version)] }) := by
            rw [hv, updateVersion_apply _ (by simpa using hf)]
            simp [hc]
          have h3 := incRun_apply { s with
            control := some { c with version := headVer doneD bad.version },
            trace := s.trace ++ [.run .down m.version, .persist (headVer doneD bad.version)] }
          have IH := downLoopN_fail migs doneD bad err evs n' (i - 1)
            { s with
              control := some { c with version := headVer doneD bad.version },
              trace := s.trace ++ [.run .down m.version, .persist (headVer doneD bad.version)],
              runCounter := s.runCounter + 1 }
            { c with version := headVer doneD bad.version }
            (by simpa using hf) (by simp)
            hw' (fun m' hm' => hdone m' (by simp [hm'])) hbad
            (by simp only [List.length_cons] at hn; omega)
          rw [downLoopN]
          rw [bind_ok h1]
          rw [bind_ok h2]
          rw [bind_ok h3]
          rw [IH]
          cases doneD with
          | nil => simp [downEvsDesc, headVer]; try omega
          | cons m' t => simp [downEvsDesc]; try omega

/-- A backward run that stops when the database write persisting the version
below `bad` faults with `e` (the `down` actions themselves all resolve): the
steps of `doneD` complete, `bad`'s `down` runs, then its per-step persist
(migrations.ts line 256) throws. -/
theorem downLoopN_persistFault (migs : List Migration) :
    ∀ (doneD : List Migration) (bad : Migration) (e : JsError)
      (rest : List (Option JsError)) (n : Nat) (i : Int) (s : DbState) (c : ControlDocument),
      s.faults = List.replicate doneD.length none ++ some e :: rest →
      s.control = some c →
      (∀ k : Nat, k < (doneD ++ [bad]).length → jsIndex migs (i - k) = (doneD ++ [bad]).get? k) →
      (∀ m ∈ doneD, m.down = some none) → bad.down = some none →
      doneD.length < n →
      downLoopN migs n i s =
        (.error e, { s with
          faults := rest,
          control := some { c with version := if doneD.isEmpty then c.version else bad.version },
          trace := s.trace ++ downEvsDesc bad.version doneD ++ [.run .down bad.version],
          runCounter := s.runCounter + doneD.length })
  | [], bad, e, rest, n, i, s, c, hf, hc, hw, _, hbad, hn => by
      cases n with
      | zero => omega
      | succ n' =>
          have hm : jsIndex migs i = some bad := by simpa using hw 0 (by simp)
          have h1 : runMigration migs .down i s =
              (.ok (), { s with trace := s.trace ++ [.run .down bad.version] }) :=
            runMigration_ok hm (by simp [actionOf, hbad]) s
          have h2 : updateVersion (((jsIndex migs (i - 1)).map Migration.version).getD 0)
                { s with trace := s.trace ++ [.run .down bad.version] } =
              (.error e, { s with
                faults := rest,
                trace := s.trace ++ [.run .down bad.version] }) := by
            rw [updateVersion_fault _ (by simpa using hf)]
          rw [downLoopN]
          rw [bind_ok h1]
          rw [bind_error h2]
          simp [downEvsDesc, ← hc]
  | m :: doneD, bad, e, rest, n, i, s, c, hf, hc, hw, hdone, hbad, hn => by
      cases n with
      | zero => omega
      | succ n' =>
          have hdown0 : m.down = some none := hdone m (by simp)
          have hm : jsIndex migs i = some m := by simpa using hw 0 (by simp)
          have hw' : ∀ k : Nat, k < (doneD ++ [bad]).length →
              jsIndex migs (i - 1 - k) = (doneD ++ [bad]).get? k := by
            intro k hk
            have h := hw (k + 1) (by simpa using Nat.succ_lt_succ hk)
            have harith : i - ((k + 1 : Nat) : Int) = i - 1 - (k : Nat) := by push_cast; ring
            rw [harith] at h
            simpa using h
          have hv : ((jsIndex migs (i - 1)).map Migration.version).getD 0 =
              headVer doneD bad.version := by
            cases doneD with
            | nil =>
                have h := hw 1 (by simp)
                have harith : i - ((1 : Nat) : Int) = i - 1 := by simp
                rw [harith] at h
                rw [h]
                simp [headVer]
            | cons m' t =>
                have h := hw 1 (by simp)
                have harith : i - ((1 : Nat) : Int) = i - 1 := by simp
                rw [harith] at h
                rw [h]
                simp [headVer]
          have h1 : runMigration migs .down i s =
              (.ok (), { s with trace := s.trace ++ [.run .down m.version] }) :=
            runMigration_ok hm (by simp [actionOf, hdown0]) s
          have h2 : updateVersion (((jsIndex migs (i - 1)).map Migration.version).getD 0)
                { s with trace := s.trace ++ [.run .down m.version] } =
              (.ok (), { s with
                faults := List.replicate doneD.length none ++ some e :: rest,
                control := some { c with version := headVer doneD bad.version },
                trace := s.trace ++ [.run .down m.version,
                  .persist (headVer doneD bad.version)] }) := by
            rw [hv, updateVersion_consume _ (by simpa using hf)]
            simp [hc]
          have h3 := incRun_apply { s with
            faults := List.replicate doneD.length none ++ some e :: rest,
            control := some { c with version := headVer doneD bad.version },
            trace := s.trace ++ [.run .down m.version, .persist (headVer doneD bad.version)] }
          have IH := downLoopN_persistFault migs doneD bad e rest n' (i - 1)
            { s with
              faults := List.replicate doneD.length none ++ some e :: rest,
              control := some { c with version := headVer doneD bad.version },
              trace := s.trace ++ [.run .down m.version, .persist (headVer doneD bad.version)],
              runCounter := s.runCounter + 1 }
            { c with version := headVer doneD bad.version }
            (by simp) (by simp)
            hw' (fun m' hm' => hdone m' (by simp [hm'])) hbad
            (by simp only [List.length_cons] at hn; omega)
          rw [downLoopN]
          rw [bind_ok h1]
          rw [bind_ok h2]
          rw [bind_ok h3]
          rw [IH]
          cases doneD with
          | nil => simp [downEvsDesc, headVer]; try omega
          | cons m' t => simp [downEvsDesc]; try omega

/-! ## Registry and index lemmas -/

theorem jsEq_some_some (a b : Int) : jsEq (some a) (some b) = (a == b) := rfl

theorem findIndexByVersion_zero (migs : List Migration) :
    findIndexByVersion migs (some 0) = .ok (-1) := by
  simp [findIndexByVersion, jsEq]

theorem findIndexByVersion_notFound {migs : List Migration} {v : Int}
    (hv : v ≠ 0) (hnot : v ∉ migs.map Migration.version) :
    findIndexByVersion migs (some v) = .error (.notFound (some v)) := by
  have hz : jsEq (some v) (some 0) = false := by
    simp [jsEq_some_some]
    omega
  have hnone : migs.findIdx? (fun m => jsEq (some m.version) (some v)) = none := by
    rw [List.findIdx?_eq_none_iff]
    intro m hm
    simp [jsEq_some_some]
    intro hv'
    exact absurd (List.mem_map_of_mem Migration.version hm) (hv' ▸ hnot)
  simp [findIndexByVersion, hz, hnone]

theorem findIndexByVersion_found {migs : List Migration} {v : Int}
    (hv : v ≠ 0) (hmem : v ∈ migs.map Migration.version) :
    ∃ i : Nat, findIndexByVersion migs (some v) = .ok (i : Int) ∧
      ∃ hi : i < migs.length, (migs.get ⟨i, hi⟩).version = v := by
  have hz : jsEq (some v) (some 0) = false := by
    simp [jsEq_some_some]
    omega
  obtain ⟨m, hm, hmv⟩ := List.mem_map.mp hmem
  have hex : ∃ x, x ∈ migs ∧ (fun m => jsEq (some m.version) (some v)) x = true :=
    ⟨m, hm, by simp [jsEq_some_some, hmv]⟩
  have hfind := List.findIdx?_eq_some_of_exists hex
  rw [List.findIdx?_eq_some_iff_getElem] at hfind
  obtain ⟨hlt, hp, _⟩ := hfind
  refine ⟨migs.findIdx (fun m => jsEq (some m.version) (some v)), ?_, hlt, ?_⟩
  · simp [findIndexByVersion, hz, List.findIdx?_eq_some_of_exists hex]
  · have := hp
    simp only [jsEq_some_some, beq_iff_eq] at this
    simpa [List.get_eq_getElem] using this

theorem sorted_version_lt {migs : List Migration} (hs : sortedStrict migs)
    {i j : Nat} (hij : i < j) (hj : j < migs.length) :
    (migs.get ⟨i, Nat.lt_trans hij hj⟩).version < (migs.get ⟨j, hj⟩).version := by
  rw [sortedStrict, List.pairwise_iff_getElem] at hs
  simpa [List.get_eq_getElem] using hs i j (Nat.lt_trans hij hj) hj hij

theorem sorted_version_le {migs : List Migration} (hs : sortedStrict migs)
    {i j : Nat} (hij : i ≤ j) (hj : j < migs.length) :
    (migs.get ⟨i, Nat.lt_of_le_of_lt hij hj⟩).version ≤ (migs.get ⟨j, hj⟩).version := by
  rcases Nat.lt_or_ge i j with h | h
  · exact le_of_lt (sorted_version_lt hs h hj)
  · have : i = j := le_antisymm hij h
    subst this
    exact le_refl _

/-- In a strictly sorted registry, if indices `< a` all have version `≤ lo`,
indices `≥ a` all have version `> lo`, and index `eN` carries version `hi`,
then the migrations with version in `(lo, hi]` are exactly the index segment
`[a, eN]`, in registry order. -/
theorem segment_eq_filter {migs : List Migration} {lo hi : Int}
    (hs : sortedStrict migs) (a eN : Nat)
    (ha_le : a ≤ eN) (heN : eN < migs.length)
    (HA : ∀ (k : Nat) (hk : k < migs.length), k < a → ¬ lo < (migs.get ⟨k, hk⟩).version)
    (HB : ∀ (k : Nat) (hk : k < migs.length), a ≤ k → lo < (migs.get ⟨k, hk⟩).version)
    (hev : (migs.get ⟨eN, heN⟩).version = hi) :
    migs.filter (inRange lo hi) = (migs.drop a).take (eN + 1 - a) := by
  have HC : ∀ (k : Nat) (hk : k < migs.length), k ≤ eN → (migs.get ⟨k, hk⟩).version ≤ hi := by
    intro k hk hke
    have := sorted_version_le hs hke heN
    omega
  have HD : ∀ (k : Nat) (hk : k < migs.length), eN < k → hi < (migs.get ⟨k, hk⟩).version := by
    intro k hk hke
    have := sorted_version_lt hs hke hk
    omega
  have hsplit2 : (migs.drop a).take (eN + 1 - a) ++ (migs.drop a).drop (eN + 1 - a) =
      migs.drop a := List.take_append_drop _ _
  have hsplit1 : migs.take a ++ migs.drop a = migs := List.take_append_drop _ _
  conv_lhs => rw [← hsplit1, ← hsplit2]
  rw [List.filter_append, List.filter_append]
  have h1 : (migs.take a).filter (inRange lo hi) = [] := by
    rw [List.filter_eq_nil_iff]
    intro m hm
    rw [List.mem_iff_getElem] at hm
    obtain ⟨k, hk, hkm⟩ := hm
    have hk' : k < a := by
      have := hk
      simp [List.length_take] at this
      omega
    have hklen : k < migs.length := by
      have := hk
      simp [List.length_take] at this
      omega
    have hval : migs.get ⟨k, hklen⟩ = m := by
      rw [List.get_eq_getElem]
      rw [← hkm]
      simp [List.getElem_take]
    have := HA k hklen hk'
    rw [hval] at this
    simp [inRange]
    intro h
    omega
  have h2 : ((migs.drop a).take (eN + 1 - a)).filter (inRange lo hi) =
      (migs.drop a).take (eN + 1 - a) := by
    rw [List.filter_eq_self]
    intro m hm
    rw [List.mem_iff_getElem] at hm
    obtain ⟨k, hk, hkm⟩ := hm
    have hlen : k < eN + 1 - a ∧ k < migs.length - a := by
      have := hk
      simp [List.length_take, List.length_drop] at this
      omega
    have hklen : a + k < migs.length := by omega
    have hval : migs.get ⟨a + k, hklen⟩ = m := by
      rw [List.get_eq_getElem]
      rw [← hkm]
      simp [List.getElem_take, List.getElem_drop]
    have hb := HB (a + k) hklen (by omega)
    have hc := HC (a + k) hklen (by omega)
    rw [hval] at hb hc
    simp [inRange]
    omega
  have h3 : ((migs.drop a).drop (eN + 1 - a)).filter (inRange lo hi) = [] := by
    rw [List.filter_eq_nil_iff]
    intro m hm
    rw [List.drop_drop] at hm
    rw [List.mem_iff_getElem] at hm
    obtain ⟨k, hk, hkm⟩ := hm
    have hklen : (a + (eN + 1 - a)) + k < migs.length := by
      have := hk
      simp [List.length_drop] at this
      omega
    have hval : migs.get ⟨(a + (eN + 1 - a)) + k, hklen⟩ = m := by
      rw [List.get_eq_getElem]
      rw [← hkm]
      simp [List.getElem_drop]
    have hd := HD ((a + (eN + 1 - a)) + k) hklen (by omega)
    rw [hval] at hd
    simp [inRange]
    intro h
    omega
  rw [h1, h2, h3]
  simp

theorem windowFacts {migs : List Migration} {lo hi : Int} (a eN : Nat)
    (ha_le : a ≤ eN) (heN : eN < migs.length)
    (hseg : migs.filter (inRange lo hi) = (migs.drop a).take (eN + 1 - a))
    (hev : (migs.get ⟨eN, heN⟩).version = hi) :
    (migs.filter (inRange lo hi)).length = eN + 1 - a ∧
    (∀ k : Nat, k < (migs.filter (inRange lo hi)).length →
      jsIndex migs ((a : Int) + k) = (migs.filter (inRange lo hi)).get? k) ∧
    migs.filter (inRange lo hi) ≠ [] ∧
    lastVer (migs.filter (inRange lo hi)) lo = hi := by
  have hlen : (migs.filter (inRange lo hi)).length = eN + 1 - a := by
    rw [hseg]
    simp [List.length_take, List.length_drop]
    omega
  refine ⟨hlen, ?_, ?_, ?_⟩
  · intro k hk
    rw [hlen] at hk
    have hnn : ¬ ((a : Int) + k < 0) := by omega
    have htn : ((a : Int) + k).toNat = a + k := by omega
    rw [jsIndex, if_neg hnn, htn, hseg]
    rw [List.get?_eq_getElem?, List.get?_eq_getElem?]
    rw [List.getElem?_take_of_lt hk, List.getElem?_drop]
  · rw [← List.length_pos]
    omega
  · rw [lastVer, List.getLast?_eq_getElem?, hseg]
    have hlen' : ((migs.drop a).take (eN + 1 - a)).length = eN + 1 - a := by
      rw [← hseg, hlen]
    rw [hlen']
    have hk : eN + 1 - a - 1 < eN + 1 - a := by omega
    rw [List.getElem?_take_of_lt hk, List.getElem?_drop]
    have : a + (eN + 1 - a - 1) = eN := by omega
    rw [this]
    rw [List.getElem?_eq_getElem heN]
    simpa [List.get_eq_getElem] using hev

theorem forwardSetup {migs : List Migration} {cv tv : Int}
    (hs : sortedStrict migs) (hpos : allPositive migs)
    (hcv : cv = 0 ∨ cv ∈ migs.map Migration.version)
    (htv : tv ∈ migs.map Migration.version)
    (hlt : cv < tv) :
    ∃ si ei : Int,
      findIndexByVersion migs (some cv) = .ok si ∧
      findIndexByVersion migs (some tv) = .ok ei ∧
      (ei + 1 - (si + 1)).toNat = (migs.filter (inRange cv tv)).length ∧
      (∀ k : Nat, k < (migs.filter (inRange cv tv)).length →
        jsIndex migs (si + 1 + k) = (migs.filter (inRange cv tv)).get? k) ∧
      migs.filter (inRange cv tv) ≠ [] ∧
      lastVer (migs.filter (inRange cv tv)) cv = tv := by
  have hcv0 : 0 ≤ cv := by
    rcases hcv with rfl | hmem
    · exact le_refl 0
    · obtain ⟨m, hm, hmv⟩ := List.mem_map.mp hmem
      have := hpos m hm
      omega
  have htv0 : tv ≠ 0 := by omega
  obtain ⟨eN, hEfind, heN, hev⟩ := findIndexByVersion_found htv0 htv
  rcases hcv with rfl | hmem
  · -- current version 0: synthetic start index -1, walk starts at index 0
    have HA : ∀ (k : Nat) (hk : k < migs.length), k < 0 →
        ¬ (0 : Int) < (migs.get ⟨k, hk⟩).version := by
      intro k _ hk
      omega
    have HB : ∀ (k : Nat) (hk : k < migs.length), 0 ≤ k →
        (0 : Int) < (migs.get ⟨k, hk⟩).version := by
      intro k hk _
      exact hpos _ (List.get_mem migs _ hk)
    have hseg := segment_eq_filter hs 0 eN (Nat.zero_le _) heN HA HB hev
    obtain ⟨hlen, hwin, hne, hlast⟩ := windowFacts 0 eN (Nat.zero_le _) heN hseg hev
    refine ⟨-1, (eN : Int), findIndexByVersion_zero migs, hEfind, ?_, ?_, hne, hlast⟩
    · omega
    · intro k hk
      have := hwin k hk
      simpa using this
  · -- current version registered at index iN; walk starts at iN + 1
    have hcvne : cv ≠ 0 := by
      obtain ⟨m, hm, hmv⟩ := List.mem_map.mp hmem
      have := hpos m hm
      omega
    obtain ⟨iN, hIfind, hiN, hiv⟩ := findIndexByVersion_found hcvne hmem
    have hie : iN < eN := by
      by_contra hcon
      push_neg at hcon
      have := sorted_version_le hs hcon hiN
      omega
    have HA : ∀ (k : Nat) (hk : k < migs.length), k < iN + 1 →
        ¬ cv < (migs.get ⟨k, hk⟩).version := by
      intro k hk hka
      have : k ≤ iN := by omega
      have := sorted_version_le hs this hiN
      omega
    have HB : ∀ (k : Nat) (hk : k < migs.length), iN + 1 ≤ k →
        cv < (migs.get ⟨k, hk⟩).version := by
      intro k hk hka
      have : iN < k := by omega
      have := sorted_version_lt hs this hk
      omega
    have hseg := segment_eq_filter hs (iN + 1) eN (by omega) heN HA HB hev
    obtain ⟨hlen, hwin, hne, hlast⟩ := windowFacts (iN + 1) eN (by omega) heN hseg hev
    refine ⟨(iN : Int), (eN : Int), hIfind, hEfind, ?_, ?_, hne, hlast⟩
    · omega
    · intro k hk
      have := hwin k hk
      have harith : ((iN : Int) + 1) + k = ((iN + 1 : Nat) : Int) + k := by push_cast; ring
      rw [harith]
      exact this

theorem backwardSetup {migs : List Migration} {cv tv : Int}
    (hs : sortedStrict migs) (hpos : allPositive migs)
    (hcv : cv ∈ migs.map Migration.version)
    (htv : tv = 0 ∨ tv ∈ migs.map Migration.version)
    (hlt : tv < cv) :
    ∃ si ei : Int,
      findIndexByVersion migs (some cv) = .ok si ∧
      findIndexByVersion migs (some tv) = .ok ei ∧
      (si - ei).toNat = (migs.filter (inRange tv cv)).reverse.length ∧
      (∀ k : Nat, k < (migs.filter (inRange tv cv)).reverse.length →
        jsIndex migs (si - k) = (migs.filter (inRange tv cv)).reverse.get? k) ∧
      ((jsIndex migs (si - (migs.filter (inRange tv cv)).reverse.length)).map
        Migration.version).getD 0 = tv ∧
      (migs.filter (inRange tv cv)).reverse ≠ [] := by
  have htv0 : 0 ≤ tv := by
    rcases htv with rfl | hmem
    · exact le_refl 0
    · obtain ⟨m, hm, hmv⟩ := List.mem_map.mp hmem
      have := hpos m hm
      omega
  have hcvne : cv ≠ 0 := by omega
  obtain ⟨sN, hSfind, hsN, hsv⟩ := findIndexByVersion_found hcvne hcv
  -- the start-of-walk index `a` and the target index `ei`
  rcases htv with rfl | hmem
  · have HA : ∀ (k : Nat) (hk : k < migs.length), k < 0 →
        ¬ (0 : Int) < (migs.get ⟨k, hk⟩).version := by
      intro k _ hk
      omega
    have HB : ∀ (k : Nat) (hk : k < migs.length), 0 ≤ k →
        (0 : Int) < (migs.get ⟨k, hk⟩).version := by
      intro k hk _
      exact hpos _ (List.get_mem migs _ hk)
    have hseg := segment_eq_filter hs 0 sN (Nat.zero_le _) hsN HA HB hsv
    obtain ⟨hlen, hwin, hne, _⟩ := windowFacts 0 sN (Nat.zero_le _) hsN hseg hsv
    have hlenr : (migs.filter (inRange 0 cv)).reverse.length = sN + 1 := by
      simp [hlen]
    refine ⟨(sN : Int), -1, hSfind, findIndexByVersion_zero migs, ?_, ?_, ?_, ?_⟩
    · rw [hlenr]
      omega
    · intro k hk
      rw [hlenr] at hk
      have hk' : sN - k < (migs.filter (inRange 0 cv)).length := by omega
      have harith : (sN : Int) - k = ((0 : Nat) : Int) + ((sN + 1 - 1 - k : Nat) : Int) := by
        push_cast
        omega
      rw [harith]
      rw [hwin (sN + 1 - 1 - k) (by omega)]
      rw [List.get?_eq_getElem?, List.get?_eq_getElem?]
      rw [List.getElem?_reverse (by omega)]
      rw [hlen]
      congr 1
      try omega
    · rw [hlenr]
      have : (sN : Int) - ((sN + 1 : Nat) : Int) = -1 := by push_cast; ring
      rw [this]
      simp [jsIndex]
    · simpa using hne
  · have htvne : tv ≠ 0 := by
      obtain ⟨m, hm, hmv⟩ := List.mem_map.mp hmem
      have := hpos m hm
      omega
    obtain ⟨eN, hEfind, heN, hev⟩ := findIndexByVersion_found htvne hmem
    have hie : eN < sN := by
      by_contra hcon
      push_neg at hcon
      have := sorted_version_le hs hcon heN
      omega
    have HA : ∀ (k : Nat) (hk : k < migs.length), k < eN + 1 →
        ¬ tv < (migs.get ⟨k, hk⟩).version := by
      intro k hk hka
      have : k ≤ eN := by omega
      have := sorted_version_le hs this heN
      omega
    have HB : ∀ (k : Nat) (hk : k < migs.length), eN + 1 ≤ k →
        tv < (migs.get ⟨k, hk⟩).version := by
      intro k hk hka
      have : eN < k := by omega
      have := sorted_version_lt hs this hk
      omega
    have hseg := segment_eq_filter hs (eN + 1) sN (by omega) hsN HA HB hsv
    obtain ⟨hlen, hwin, hne, _⟩ := windowFacts (eN + 1) sN (by omega) hsN hseg hsv
    have hlenr : (migs.filter (inRange tv cv)).reverse.length = sN - eN := by
      simp [hlen]
    refine ⟨(sN : Int), (eN : Int), hSfind, hEfind, ?_, ?_, ?_, ?_⟩
    · rw [hlenr]
      omega
    · intro k hk
      rw [hlenr] at hk
      have harith : (sN : Int) - k =
          ((eN + 1 : Nat) : Int) + ((sN - eN - 1 - k : Nat) : Int) := by
        push_cast
        omega
      rw [harith]
      rw [hwin (sN - eN - 1 - k) (by omega)]
      rw [List.get?_eq_getElem?, List.get?_eq_getElem?]
      rw [List.getElem?_reverse (by omega)]
      rw [hlen]
      congr 1
      try omega
    · rw [hlenr]
      have harith : (sN : Int) - ((sN - eN : Nat) : Int) = ((eN : Nat) : Int) := by
        push_cast
        omega
      rw [harith]
      have hnn : ¬ ((eN : Int) < 0) := by omega
      have htn : ((eN : Int)).toNat = eN := by omega
      rw [jsIndex, if_neg hnn, htn]
      rw [List.get?_eq_getElem?, List.getElem?_eq_getElem heN]
      simpa [List.get_eq_getElem] using hev
    · simpa using hne

/-! ## Engine-level execution lemmas -/

theorem ofExcept_ok {α : Type} (a : α) (s : DbState) :
    M.ofExcept (.ok a) s = (.ok a, s) := rfl

theorem ofExcept_error {α : Type} (e : JsError) (s : DbState) :
    (M.ofExcept (.error e) : M α) s = (.error e, s) := rfl

/-- A run which passes the fast path (non-rerun with current = target): no
lock attempt, no steps, success with zero migrations counted. -/
theorem migrate_fastpath {migs : List Migration} {v : Int} {s : DbState} {c : ControlDocument}
    (hf : s.faults = []) (hc : s.control = some c) (hv : c.version = v) :
    _migrateTo migs (some v) false s =
      (.ok { success := true, fromVersion := v, toVersion := some v, migrationsRun := 0 },
       { s with runCounter := 0 }) := by
  unfold _migrateTo
  rw [bind_ok (_getControl_apply hf hc)]
  rw [bind_ok (setRun_apply 0 s)]
  have hcond : (!false && jsEq (some c.version) (some v)) = true := by
    simp [jsEq_some_some, hv]
  rw [hcond]
  simp only [if_true]
  rw [hv]
  rfl

/-- Common shape of every run that reaches and wins the lock. -/
theorem migrate_enter {migs : List Migration} {version : Option Int} {r : Bool}
    {s : DbState} {cv : Int}
    (hf : s.faults = []) (hc : s.control = some ⟨cv, false⟩)
    (hcond : (!r && jsEq (some cv) version) = false) :
    _migrateTo migs version r s =
      M.tryCatch
        (do
          (if r then do
              let idx ← M.ofExcept (findIndexByVersion migs version)
              runMigration migs .up idx
              setRun 1
            else do
              let startIdx ← M.ofExcept (findIndexByVersion migs (some cv))
              let endIdx ← M.ofExcept (findIndexByVersion migs version)
              if jsLt (some cv) version then
                upLoop migs endIdx (startIdx + 1)
              else
                downLoop migs endIdx startIdx)
          unlock
          let n ← getRun
          M.pure { success := true, fromVersion := cv, toVersion := version,
                   migrationsRun := n })
        (fun e => do
          unlock
          let n ← getRun
          M.pure { success := false, fromVersion := cv, toVersion := version,
                   migrationsRun := n, error := some e })
        { s with control := some ⟨cv, true⟩, runCounter := 0,
                 trace := s.trace ++ [.lockAttempt] } := by
  unfold _migrateTo
  rw [bind_ok (_getControl_apply hf hc)]
  rw [bind_ok (setRun_apply 0 s)]
  dsimp only
  rw [hcond]
  simp only [Bool.false_eq_true, if_false]
  rw [bind_ok (lock_acquired (s := { s with runCounter := 0 })
    (by simpa using hf) (by simpa using hc))]
  simp only [Bool.not_true, Bool.false_eq_true, if_false]

/-- A run that reaches the lock and finds it held: a returned (not thrown)
failed result carrying the lock-held error, zero steps, no retry. -/
theorem migrate_locked {migs : List Migration} {version : Option Int} {r : Bool}
    {s : DbState} {cv : Int}
    (hf : s.faults = []) (hc : s.control = some ⟨cv, true⟩)
    (hcond : (!r && jsEq (some cv) version) = false) :
    _migrateTo migs version r s =
      (.ok { success := false, fromVersion := cv, toVersion := version,
             migrationsRun := 0, error := some .lockHeld },
       { s with runCounter := 0, trace := s.trace ++ [.lockAttempt] }) := by
  unfold _migrateTo
  rw [bind_ok (_getControl_apply hf hc)]
  rw [bind_ok (setRun_apply 0 s)]
  dsimp only
  rw [hcond]
  simp only [Bool.false_eq_true, if_false]
  rw [bind_ok (lock_denied (s := { s with runCounter := 0 })
    (by simpa using hf) (by simpa using hc))]
  simp only [Bool.not_false, if_true]
  rfl

/-- A fault-free forward run (current < target, both resolvable, lock free,
every walked `up` action resolves): exactly the migrations with version in
`(current, target]` run, in ascending order, each `up` followed by the persist
of its version; the lock is released and the final persisted version is the
target. -/
theorem migrate_up_ok {migs : List Migration} {cv tv : Int} {s : DbState}
    (hs : sortedStrict migs) (hpos : allPositive migs)
    (hcv : cv = 0 ∨ cv ∈ migs.map Migration.version)
    (htv : tv ∈ migs.map Migration.version)
    (hlt : cv < tv)
    (hup : ∀ m ∈ migs.filter (inRange cv tv), m.up = some none)
    (hf : s.faults = []) (hc : s.control = some ⟨cv, false⟩) :
    _migrateTo migs (some tv) false s =
      (.ok { success := true, fromVersion := cv, toVersion := some tv,
             migrationsRun := (migs.filter (inRange cv tv)).length },
       { s with control := some ⟨tv, false⟩,
                runCounter := (migs.filter (inRange cv tv)).length,
                trace := s.trace ++ [.lockAttempt] ++ upSteps (migs.filter (inRange cv tv))
                  ++ [.unlockAttempt] }) := by
  obtain ⟨si, ei, hSfind, hEfind, hcount, hwin, hne, hlast⟩ := forwardSetup hs hpos hcv htv hlt
  have hjne : (!false && jsEq (some cv) (some tv)) = false := by
    simp [jsEq_some_some]
    omega
  have hjslt : jsLt (some cv) (some tv) = true := by
    simp [jsLt]
    omega
  rw [migrate_enter hf hc hjne]
  unfold M.tryCatch
  simp only [Bool.false_eq_true, if_false]
  rw [hSfind, hEfind]
  have helse : (do
      let startIdx ← M.ofExcept (Except.ok si)
      let endIdx ← M.ofExcept (Except.ok (ei : Int))
      if jsLt (some cv) (some tv) then
        upLoop migs endIdx (startIdx + 1)
      else
        downLoop migs endIdx startIdx)
      { s with control := some ⟨cv, true⟩, runCounter := 0,
               trace := s.trace ++ [Ev.lockAttempt] } =
      (.ok (), { s with
        control := some ⟨tv, true⟩,
        runCounter := 0 + (migs.filter (inRange cv tv)).length,
        trace := (s.trace ++ [Ev.lockAttempt]) ++ upSteps (migs.filter (inRange cv tv)) }) := by
    rw [bind_ok (ofExcept_ok si _)]
    rw [bind_ok (ofExcept_ok ei _)]
    rw [hjslt]
    simp only [if_true]
    unfold upLoop
    rw [hcount]
    rw [upLoopN_ok migs (migs.filter (inRange cv tv)) (si + 1)
      { s with control := some ⟨cv, true⟩, runCounter := 0,
               trace := s.trace ++ [Ev.lockAttempt] }
      ⟨cv, true⟩ (by simpa using hf) rfl hwin hup]
    rw [hlast]
  rw [bind_ok helse]
  rw [bind_ok (unlock_apply (by simpa using hf))]
  rw [bind_ok (getRun_apply _)]
  simp [M.pure]

/-- A fault-free backward run (target < current, both resolvable, lock free,
every walked `down` action resolves): exactly the migrations with version in
`(target, current]` run, in descending order, each `down` followed by the
persist of the preceding version (or the target); the lock is released and the
final persisted version is the target. -/
theorem migrate_down_ok {migs : List Migration} {cv tv : Int} {s : DbState}
    (hs : sortedStrict migs) (hpos : allPositive migs)
    (hcv : cv ∈ migs.map Migration.version)
    (htv : tv = 0 ∨ tv ∈ migs.map Migration.version)
    (hlt : tv < cv)
    (hdown : ∀ m ∈ (migs.filter (inRange tv cv)).reverse, m.down = some none)
    (hf : s.faults = []) (hc : s.control = some ⟨cv, false⟩) :
    _migrateTo migs (some tv) false s =
      (.ok { success := true, fromVersion := cv, toVersion := some tv,
             migrationsRun := (migs.filter (inRange tv cv)).reverse.length },
       { s with control := some ⟨tv, false⟩,
                runCounter := (migs.filter (inRange tv cv)).reverse.length,
                trace := s.trace ++ [.lockAttempt]
                  ++ downEvsDesc tv (migs.filter (inRange tv cv)).reverse
                  ++ [.unlockAttempt] }) := by
  obtain ⟨si, ei, hSfind, hEfind, hcount, hwin, hbase, hneD⟩ :=
    backwardSetup hs hpos hcv htv hlt
  have hjne : (!false && jsEq (some cv) (some tv)) = false := by
    simp [jsEq_some_some]
    omega
  have hjslt : jsLt (some cv) (some tv) = false := by
    simp [jsLt]
    omega
  rw [migrate_enter hf hc hjne]
  unfold M.tryCatch
  simp only [Bool.false_eq_true, if_false]
  rw [hSfind, hEfind]
  have hempty : ((migs.filter (inRange tv cv)).reverse.isEmpty = false) := by
    cases h : (migs.filter (inRange tv cv)).reverse with
    | nil => exact absurd h hneD
    | cons x t => rfl
  have helse : (do
      let startIdx ← M.ofExcept (Except.ok si)
      let endIdx ← M.ofExcept (Except.ok (ei : Int))
      if jsLt (some cv) (some tv) then
        upLoop migs endIdx (startIdx + 1)
      else
        downLoop migs endIdx startIdx)
      { s with control := some ⟨cv, true⟩, runCounter := 0,
               trace := s.trace ++ [Ev.lockAttempt] } =
      (.ok (), { s with
        control := some ⟨tv, true⟩,
        runCounter := 0 + (migs.filter (inRange tv cv)).reverse.length,
        trace := (s.trace ++ [Ev.lockAttempt])
          ++ downEvsDesc tv (migs.filter (inRange tv cv)).reverse }) := by
    rw [bind_ok (ofExcept_ok si _)]
    rw [bind_ok (ofExcept_ok ei _)]
    rw [hjslt]
    simp only [Bool.false_eq_true, if_false]
    unfold downLoop
    rw [hcount]
    rw [downLoopN_ok migs (migs.filter (inRange tv cv)).reverse si
      { s with control := some ⟨cv, true⟩, runCounter := 0,
               trace := s.trace ++ [Ev.lockAttempt] }
      ⟨cv, true⟩ tv (by simpa using hf) rfl hwin hbase hdown]
    rw [hempty]
    simp only [Bool.false_eq_true, if_false]
  rw [bind_ok helse]
  rw [bind_ok (unlock_apply (by simpa using hf))]
  rw [bind_ok (getRun_apply _)]
  simp [M.pure]

theorem get?_prefix_split {α : Type} {A : List α} {b : α} (B : List α) (k : Nat)
    (hk : k < A.length + 1) : (A ++ b :: B).get? k = (A ++ [b]).get? k := by
  rcases Nat.lt_or_ge k A.length with h | h
  · rw [List.get?_append h, List.get?_append (by simpa using h)]
  · have hks : k = A.length := by omega
    subst hks
    rw [List.get?_append_right h, List.get?_append_right (by simpa using h)]
    simp

/-- A fault-free forward run in which `bad`'s `up` action throws `e` after the
migrations of `done` ran: the run stops at `bad`, converts the error into a
failed result with `fromVersion` the entry version and `migrationsRun` the
completed count, and still releases the lock. -/
theorem migrate_up_actionFail {migs : List Migration} {cv tv : Int} {s : DbState}
    {done restW : List Migration} {bad : Migration} {e : JsError}
    (hs : sortedStrict migs) (hpos : allPositive migs)
    (hcv : cv = 0 ∨ cv ∈ migs.map Migration.version)
    (htv : tv ∈ migs.map Migration.version)
    (hlt : cv < tv)
    (hsplit : migs.filter (inRange cv tv) = done ++ bad :: restW)
    (hdone : ∀ m ∈ done, m.up = some none)
    (hbad : bad.up = some (some e))
    (hf : s.faults = []) (hc : s.control = some ⟨cv, false⟩) :
    _migrateTo migs (some tv) false s =
      (.ok { success := false, fromVersion := cv, toVersion := some tv,
             migrationsRun := done.length, error := some e },
       { s with control := some ⟨lastVer done cv, false⟩,
                runCounter := done.length,
                trace := s.trace ++ [.lockAttempt] ++ upSteps done
                  ++ [.run .up bad.version] ++ [.unlockAttempt] }) := by
  obtain ⟨si, ei, hSfind, hEfind, hcount, hwin, hne, hlast⟩ := forwardSetup hs hpos hcv htv hlt
  have hjne : (!false && jsEq (some cv) (some tv)) = false := by
    simp [jsEq_some_some]
    omega
  have hjslt : jsLt (some cv) (some tv) = true := by
    simp [jsLt]
    omega
  have hlenW : (migs.filter (inRange cv tv)).length = done.length + 1 + restW.length := by
    rw [hsplit]
    simp
    omega
  have hwin' : ∀ k : Nat, k < (done ++ [bad]).length →
      jsIndex migs (si + 1 + k) = (done ++ [bad]).get? k := by
    intro k hk
    simp only [List.length_append, List.length_cons] at hk
    have hk' : k < (migs.filter (inRange cv tv)).length := by
      simp at hk
      omega
    rw [hwin k hk', hsplit]
    exact get?_prefix_split restW k (by simpa using hk)
  rw [migrate_enter hf hc hjne]
  unfold M.tryCatch
  simp only [Bool.false_eq_true, if_false]
  rw [hSfind, hEfind]
  have helse : (do
      let startIdx ← M.ofExcept (Except.ok si)
      let endIdx ← M.ofExcept (Except.ok (ei : Int))
      if jsLt (some cv) (some tv) then
        upLoop migs endIdx (startIdx + 1)
      else
        downLoop migs endIdx startIdx)
      { s with control := some ⟨cv, true⟩, runCounter := 0,
               trace := s.trace ++ [Ev.lockAttempt] } =
      (.error e, { s with
        control := some ⟨lastVer done cv, true⟩,
        runCounter := 0 + done.length,
        trace := (s.trace ++ [Ev.lockAttempt]) ++ upSteps done
          ++ [Ev.run Dir.up bad.version] }) := by
    rw [bind_ok (ofExcept_ok si _)]
    rw [bind_ok (ofExcept_ok ei _)]
    rw [hjslt]
    simp only [if_true]
    unfold upLoop
    rw [hcount, hlenW]
    rw [upLoopN_actionFail migs done bad e (done.length + 1 + restW.length) (si + 1)
      { s with control := some ⟨cv, true⟩, runCounter := 0,
               trace := s.trace ++ [Ev.lockAttempt] }
      ⟨cv, true⟩ (by simpa using hf) rfl hwin' hdone hbad (by omega)]
  rw [bind_error helse]
  dsimp only
  rw [bind_ok (unlock_apply (by simpa using hf))]
  rw [bind_ok (getRun_apply _)]
  simp [M.pure]

/-- A fault-free backward run that stops at `bad` (visited after `doneD`,
in descending order): either `bad` lacks a `down` action (unsupported
direction, no step event) or its `down` throws.  The error becomes a failed
result with partial progress recorded, and the lock is released. -/
theorem migrate_down_fail {migs : List Migration} {cv tv : Int} {s : DbState}
    {doneD restD : List Migration} {bad : Migration} {err : JsError} {evs : List Ev}
    (hs : sortedStrict migs) (hpos : allPositive migs)
    (hcv : cv ∈ migs.map Migration.version)
    (htv : tv = 0 ∨ tv ∈ migs.map Migration.version)
    (hlt : tv < cv)
    (hsplit : (migs.filter (inRange tv cv)).reverse = doneD ++ bad :: restD)
    (hdone : ∀ m ∈ doneD, m.down = some none)
    (hbad : (bad.down = none ∧ err = .cannotMigrate .down bad.version ∧ evs = []) ∨
      (bad.down = some (some err) ∧ evs = [.run .down bad.version]))
    (hf : s.faults = []) (hc : s.control = some ⟨cv, false⟩) :
    _migrateTo migs (some tv) false s =
      (.ok { success := false, fromVersion := cv, toVersion := some tv,
             migrationsRun := doneD.length, error := some err },
       { s with
          control := some ⟨if doneD.isEmpty then cv else bad.version, false⟩,
          runCounter := doneD.length,
          trace := s.trace ++ [.lockAttempt] ++ downEvsDesc bad.version doneD
            ++ evs ++ [.unlockAttempt] }) := by
  obtain ⟨si, ei, hSfind, hEfind, hcount, hwin, hbase, hneD⟩ :=
    backwardSetup hs hpos hcv htv hlt
  have hjne : (!false && jsEq (some cv) (some tv)) = false := by
    simp [jsEq_some_some]
    omega
  have hjslt : jsLt (some cv) (some tv) = false := by
    simp [jsLt]
    omega
  have hlenW : (migs.filter (inRange tv cv)).reverse.length =
      doneD.length + 1 + restD.length := by
    rw [hsplit]
    simp
    omega
  have hwin' : ∀ k : Nat, k < (doneD ++ [bad]).length →
      jsIndex migs (si - k) = (doneD ++ [bad]).get? k := by
    intro k hk
    simp only [List.length_append, List.length_cons] at hk
    have hk' : k < (migs.filter (inRange tv cv)).reverse.length := by
      simp at hk
      omega
    rw [hwin k hk', hsplit]
    exact get?_prefix_split restD k (by simpa using hk)
  rw [migrate_enter hf hc hjne]
  unfold M.tryCatch
  simp only [Bool.false_eq_true, if_false]
  rw [hSfind, hEfind]
  have helse : (do
      let startIdx ← M.ofExcept (Except.ok si)
      let endIdx ← M.ofExcept (Except.ok (ei : Int))
      if jsLt (some cv) (some tv) then
        upLoop migs endIdx (startIdx + 1)
      else
        downLoop migs endIdx startIdx)
      { s with control := some ⟨cv, true⟩, runCounter := 0,
               trace := s.trace ++ [Ev.lockAttempt] } =
      (.error err, { s with
        control := some ⟨if doneD.isEmpty then cv else bad.version, true⟩,
        runCounter := 0 + doneD.length,
        trace := (s.trace ++ [Ev.lockAttempt]) ++ downEvsDesc bad.version doneD
          ++ evs }) := by
    rw [bind_ok (ofExcept_ok si _)]
    rw [bind_ok (ofExcept_ok ei _)]
    rw [hjslt]
    simp only [Bool.false_eq_true, if_false]
    unfold downLoop
    rw [hcount, hlenW]
    rw [downLoopN_fail migs doneD bad err evs (doneD.length + 1 + restD.length) si
      { s with control := some ⟨cv, true⟩, runCounter := 0,
               trace := s.trace ++ [Ev.lockAttempt] }
      ⟨cv, true⟩ (by simpa using hf) rfl hwin' hdone hbad (by omega)]
  rw [bind_error helse]
  dsimp only
  rw [bind_ok (unlock_apply (by simpa using hf))]
  rw [bind_ok (getRun_apply _)]
  simp [M.pure]

theorem findControl_consume {s : DbState} {rest : List (Option JsError)}
    (hf : s.faults = none :: rest) :
    findControl s = (.ok s.control, { s with faults := rest }) := by
  unfold findControl
  rw [dbOp_consume _ hf]

theorem _getControl_consume {s : DbState} {c : ControlDocument}
    {rest : List (Option JsError)} (hf : s.faults = none :: rest)
    (hc : s.control = some c) :
    _getControl s = (.ok c, { s with faults := rest }) := by
  unfold _getControl
  rw [bind_ok (findControl_consume hf)]
  rw [hc]
  rfl

theorem lock_acquired_consume {s : DbState} {v : Int} {rest : List (Option JsError)}
    (hf : s.faults = none :: rest) (hc : s.control = some ⟨v, false⟩) :
    lock s = (.ok true, { s with
      faults := rest,
      control := some ⟨v, true⟩,
      trace := s.trace ++ [Ev.lockAttempt] }) := by
  unfold lock
  rw [bind_ok (note_apply _ _)]
  unfold lockUpdate
  rw [dbOp_consume _ (by simpa using hf)]
  simp [hc]

/-- `migrate_enter` when the first two driver calls (control read, lock
update) consume fault-schedule entries that are clear. -/
theorem migrate_enter_consume {migs : List Migration} {version : Option Int} {r : Bool}
    {s : DbState} {cv : Int} {rest : List (Option JsError)}
    (hf : s.faults = none :: none :: rest) (hc : s.control = some ⟨cv, false⟩)
    (hcond : (!r && jsEq (some cv) version) = false) :
    _migrateTo migs version r s =
      M.tryCatch
        (do
          (if r then do
              let idx ← M.ofExcept (findIndexByVersion migs version)
              runMigration migs .up idx
              setRun 1
            else do
              let startIdx ← M.ofExcept (findIndexByVersion migs (some cv))
              let endIdx ← M.ofExcept (findIndexByVersion migs version)
              if jsLt (some cv) version then
                upLoop migs endIdx (startIdx + 1)
              else
                downLoop migs endIdx startIdx)
          unlock
          let n ← getRun
          M.pure { success := true, fromVersion := cv, toVersion := version,
                   migrationsRun := n })
        (fun e => do
          unlock
          let n ← getRun
          M.pure { success := false, fromVersion := cv, toVersion := version,
                   migrationsRun := n, error := some e })
        { s with faults := rest, control := some ⟨cv, true⟩, runCounter := 0,
                 trace := s.trace ++ [.lockAttempt] } := by
  unfold _migrateTo
  rw [bind_ok (_getControl_consume hf hc)]
  rw [bind_ok (setRun_apply 0 _)]
  dsimp only
  rw [hcond]
  simp only [Bool.false_eq_true, if_false]
  rw [bind_ok (@lock_acquired_consume
    { s with faults := none :: rest, runCounter := 0 } cv rest
    (by simp) (by simpa using hc))]
  simp only [Bool.not_true, Bool.false_eq_true, if_false]

/-- A forward run in which the database write persisting `bad`'s version
fails with `e` (every action resolves): the error is caught and converted
into a failed result carrying `e` unchanged, and the lock is released. -/
theorem migrate_up_persistFault {migs : List Migration} {cv tv : Int} {s : DbState}
    {done restW : List Migration} {bad : Migration} {e : JsError}
    (hs : sortedStrict migs) (hpos : allPositive migs)
    (hcv : cv = 0 ∨ cv ∈ migs.map Migration.version)
    (htv : tv ∈ migs.map Migration.version)
    (hlt : cv < tv)
    (hsplit : migs.filter (inRange cv tv) = done ++ bad :: restW)
    (hdone : ∀ m ∈ done, m.up = some none)
    (hbad : bad.up = some none)
    (hf : s.faults = none :: none :: (List.replicate done.length none ++ [some e]))
    (hc : s.control = some ⟨cv, false⟩) :
    _migrateTo migs (some tv) false s =
      (.ok { success := false, fromVersion := cv, toVersion := some tv,
             migrationsRun := done.length, error := some e },
       { s with faults := [],
                control := some ⟨lastVer done cv, false⟩,
                runCounter := done.length,
                trace := s.trace ++ [.lockAttempt] ++ upSteps done
                  ++ [.run .up bad.version] ++ [.unlockAttempt] }) := by
  obtain ⟨si, ei, hSfind, hEfind, hcount, hwin, hne, hlast⟩ := forwardSetup hs hpos hcv htv hlt
  have hjne : (!false && jsEq (some cv) (some tv)) = false := by
    simp [jsEq_some_some]
    omega
  have hjslt : jsLt (some cv) (some tv) = true := by
    simp [jsLt]
    omega
  have hlenW : (migs.filter (inRange cv tv)).length = done.length + 1 + restW.length := by
    rw [hsplit]
    simp
    omega
  have hwin' : ∀ k : Nat, k < (done ++ [bad]).length →
      jsIndex migs (si + 1 + k) = (done ++ [bad]).get? k := by
    intro k hk
    simp only [List.length_append, List.length_cons] at hk
    have hk' : k < (migs.filter (inRange cv tv)).length := by
      simp at hk
      omega
    rw [hwin k hk', hsplit]
    exact get?_prefix_split restW k (by simpa using hk)
  rw [migrate_enter_consume hf hc hjne]
  unfold M.tryCatch
  simp only [Bool.false_eq_true, if_false]
  rw [hSfind, hEfind]
  have helse : (do
      let startIdx ← M.ofExcept (Except.ok si)
      let endIdx ← M.ofExcept (Except.ok (ei : Int))
      if jsLt (some cv) (some tv) then
        upLoop migs endIdx (startIdx + 1)
      else
        downLoop migs endIdx startIdx)
      { s with faults := List.replicate done.length none ++ [some e],
               control := some ⟨cv, true⟩, runCounter := 0,
               trace := s.trace ++ [Ev.lockAttempt] } =
      (.error e, { s with
        faults := [],
        control := some ⟨lastVer done cv, true⟩,
        runCounter := 0 + done.length,
        trace := (s.trace ++ [Ev.lockAttempt]) ++ upSteps done
          ++ [Ev.run Dir.up bad.version] }) := by
    rw [bind_ok (ofExcept_ok si _)]
    rw [bind_ok (ofExcept_ok ei _)]
    rw [hjslt]
    simp only [if_true]
    unfold upLoop
    rw [hcount, hlenW]
    rw [upLoopN_persistFault migs done bad e [] (done.length + 1 + restW.length) (si + 1)
      { s with faults := List.replicate done.length none ++ [some e],
               control := some ⟨cv, true⟩, runCounter := 0,
               trace := s.trace ++ [Ev.lockAttempt] }
      ⟨cv, true⟩ (by simp) rfl hwin' hdone hbad (by omega)]
  rw [bind_error helse]
  dsimp only
  rw [bind_ok (unlock_apply (by simp))]
  rw [bind_ok (getRun_apply _)]
  simp [M.pure]

/-- A backward run in which the database write persisting the version below
`bad` fails with `e` (every walked `down` action resolves): the error is
caught and converted into a failed result carrying `e` unchanged, and the
lock is released. -/
theorem migrate_down_persistFault {migs : List Migration} {cv tv : Int} {s : DbState}
    {doneD restD : List Migration} {bad : Migration} {e : JsError}
    (hs : sortedStrict migs) (hpos : allPositive migs)
    (hcv : cv ∈ migs.map Migration.version)
    (htv : tv = 0 ∨ tv ∈ migs.map Migration.version)
    (hlt : tv < cv)
    (hsplit : (migs.filter (inRange tv cv)).reverse = doneD ++ bad :: restD)
    (hdone : ∀ m ∈ doneD, m.down = some none)
    (hbad : bad.down = some none)
    (hf : s.faults = none :: none :: (List.replicate doneD.length none ++ [some e]))
    (hc : s.control = some ⟨cv, false⟩) :
    _migrateTo migs (some tv) false s =
      (.ok { success := false, fromVersion := cv, toVersion := some tv,
             migrationsRun := doneD.length, error := some e },
       { s with faults := [],
                control := some ⟨if doneD.isEmpty then cv else bad.version, false⟩,
                runCounter := doneD.length,
                trace := s.trace ++ [.lockAttempt] ++ downEvsDesc bad.version doneD
                  ++ [.run .down bad.version] ++ [.unlockAttempt] }) := by
  obtain ⟨si, ei, hSfind, hEfind, hcount, hwin, hbase, hneD⟩ :=
    backwardSetup hs hpos hcv htv hlt
  have hjne : (!false && jsEq (some cv) (some tv)) = false := by
    simp [jsEq_some_some]
    omega
  have hjslt : jsLt (some cv) (some tv) = false := by
    simp [jsLt]
    omega
  have hlenW : (migs.filter (inRange tv cv)).reverse.length =
      doneD.length + 1 + restD.length := by
    rw [hsplit]
    simp
    omega
  have hwin' : ∀ k : Nat, k < (doneD ++ [bad]).length →
      jsIndex migs (si - k) = (doneD ++ [bad]).get? k := by
    intro k hk
    simp only [List.length_append, List.length_cons] at hk
    have hk' : k < (migs.filter (inRange tv cv)).reverse.length := by
      simp at hk
      omega
    rw [hwin k hk', hsplit]
    exact get?_prefix_split restD k (by simpa using hk)
  rw [migrate_enter_consume hf hc hjne]
  unfold M.tryCatch
  simp only [Bool.false_eq_true, if_false]
  rw [hSfind, hEfind]
  have helse : (do
      let startIdx ← M.ofExcept (Except.ok si)
      let endIdx ← M.ofExcept (Except.ok (ei : Int))
      if jsLt (some cv) (some tv) then
        upLoop migs endIdx (startIdx + 1)
      else
        downLoop migs endIdx startIdx)
      { s with faults := List.replicate doneD.length none ++ [some e],
               control := some ⟨cv, true⟩, runCounter := 0,
               trace := s.trace ++ [Ev.lockAttempt] } =
      (.error e, { s with
        faults := [],
        control := some ⟨if doneD.isEmpty then cv else bad.version, true⟩,
        runCounter := 0 + doneD.length,
        trace := (s.trace ++ [Ev.lockAttempt]) ++ downEvsDesc bad.version doneD
          ++ [Ev.run Dir.down bad.version] }) := by
    rw [bind_ok (ofExcept_ok si _)]
    rw [bind_ok (ofExcept_ok ei _)]
    rw [hjslt]
    simp only [Bool.false_eq_true, if_false]
    unfold downLoop
    rw [hcount, hlenW]
    rw [downLoopN_persistFault migs doneD bad e [] (doneD.length + 1 + restD.length) si
      { s with faults := List.replicate doneD.length none ++ [some e],
               control := some ⟨cv, true⟩, runCounter := 0,
               trace := s.trace ++ [Ev.lockAttempt] }
      ⟨cv, true⟩ (by simp) rfl hwin' hdone hbad (by omega)]
  rw [bind_error helse]
  dsimp only
  rw [bind_ok (unlock_apply (by simp))]
  rw [bind_ok (getRun_apply _)]
  simp [M.pure]

/-- A fault-free rerun whose target migration's `up` action throws `e`: the
error is converted into a failed result (with `migrationsRun = 0`, the
counter assignment following the invocation never being reached) and the
lock is released; nothing is persisted. -/
theorem migrate_rerun_actionFail {migs : List Migration} {cv tv : Int} {s : DbState}
    {e : JsError}
    (hv0 : tv ≠ 0) (htv : tv ∈ migs.map Migration.version)
    (hfail : ∀ m ∈ migs, m.version = tv → m.up = some (some e))
    (hf : s.faults = []) (hc : s.control = some ⟨cv, false⟩) :
    _migrateTo migs (some tv) true s =
      (.ok { success := false, fromVersion := cv, toVersion := some tv,
             migrationsRun := 0, error := some e },
       { s with control := some ⟨cv, false⟩, runCounter := 0,
                trace := s.trace ++ [.lockAttempt, .run .up tv, .unlockAttempt] }) := by
  obtain ⟨iN, hEfind, hi, hiv⟩ := findIndexByVersion_found hv0 htv
  have hm : jsIndex migs (iN : Int) = some (migs.get ⟨iN, hi⟩) := by
    have h1 : ¬ ((iN : Int) < 0) := by omega
    have h2 : ((iN : Int)).toNat = iN := by omega
    rw [jsIndex, if_neg h1, h2]
    rw [List.get?_eq_getElem?, List.getElem?_eq_getElem hi]
    simp [List.get_eq_getElem]
  have hup : (migs.get ⟨iN, hi⟩).up = some (some e) :=
    hfail _ (List.get_mem migs _ hi) hiv
  have hcond : (!true && jsEq (some cv) (some tv)) = false := by simp
  rw [migrate_enter hf hc hcond]
  unfold M.tryCatch
  rw [if_pos rfl]
  rw [hEfind]
  have hrerun : (do
      let idx ← M.ofExcept (Except.ok (iN : Int))
      runMigration migs .up idx
      setRun 1)
      { s with control := some ⟨cv, true⟩, runCounter := 0,
               trace := s.trace ++ [Ev.lockAttempt] } =
      (.error e, { s with
        control := some ⟨cv, true⟩,
        runCounter := 0,
        trace := (s.trace ++ [Ev.lockAttempt]) ++ [Ev.run Dir.up tv] }) := by
    rw [bind_ok (ofExcept_ok _ _)]
    rw [bind_error (runMigration_throws hm (by simp only [actionOf]; simpa using hup) _)]
    rw [hiv]
  rw [bind_error hrerun]
  dsimp only
  rw [bind_ok (unlock_apply (by simpa using hf))]
  rw [bind_ok (getRun_apply _)]
  simp [M.pure]

/-- A run whose resolved target is neither `0` nor a registered version, with
the lock free and the current version resolvable: the not-found error is
raised during index resolution inside the guarded region, so it is converted
into a failed result and the lock is released. -/
theorem migrate_notFound {migs : List Migration} {cv tv : Int} {s : DbState}
    (hpos : allPositive migs)
    (hcv : cv = 0 ∨ cv ∈ migs.map Migration.version)
    (hv0 : tv ≠ 0)
    (hnot : tv ∉ migs.map Migration.version)
    (hne : cv ≠ tv)
    (hf : s.faults = []) (hc : s.control = some ⟨cv, false⟩) :
    _migrateTo migs (some tv) false s =
      (.ok { success := false, fromVersion := cv, toVersion := some tv,
             migrationsRun := 0, error := some (.notFound (some tv)) },
       { s with control := some ⟨cv, false⟩, runCounter := 0,
                trace := s.trace ++ [.lockAttempt, .unlockAttempt] }) := by
  have hjne : (!false && jsEq (some cv) (some tv)) = false := by
    simp [jsEq_some_some]
    omega
  have hSfind : ∃ si : Int, findIndexByVersion migs (some cv) = .ok si := by
    rcases hcv with rfl | hmem
    · exact ⟨-1, findIndexByVersion_zero migs⟩
    · have hcvne : cv ≠ 0 := by
        obtain ⟨m, hm, hmv⟩ := List.mem_map.mp hmem
        have := hpos m hm
        omega
      obtain ⟨iN, hfind, _, _⟩ := findIndexByVersion_found hcvne hmem
      exact ⟨(iN : Int), hfind⟩
  obtain ⟨si, hSfind⟩ := hSfind
  have hEfind := findIndexByVersion_notFound hv0 hnot
  rw [migrate_enter hf hc hjne]
  unfold M.tryCatch
  simp only [Bool.false_eq_true, if_false]
  rw [hSfind, hEfind]
  have helse : (do
      let startIdx ← M.ofExcept (Except.ok si)
      let endIdx ← (M.ofExcept (Except.error (JsError.notFound (some tv))) : M Int)
      if jsLt (some cv) (some tv) then
        upLoop migs endIdx (startIdx + 1)
      else
        downLoop migs endIdx startIdx)
      { s with control := some ⟨cv, true⟩, runCounter := 0,
               trace := s.trace ++ [Ev.lockAttempt] } =
      (.error (JsError.notFound (some tv)),
       { s with control := some ⟨cv, true⟩, runCounter := 0,
                trace := s.trace ++ [Ev.lockAttempt] }) := by
    rw [bind_ok (ofExcept_ok si _)]
    rw [bind_error (ofExcept_error _ _)]
  rw [bind_error helse]
  dsimp only
  rw [bind_ok (unlock_apply (by simpa using hf))]
  rw [bind_ok (getRun_apply _)]
  simp [M.pure]

/-! ## Wrapper and trace lemmas -/

theorem bind_pureM {α : Type} (x : M α) (s : DbState) :
    (x >>= fun a => M.pure a) s = x s := by
  show M.bind x M.pure s = x s
  unfold M.bind M.pure
  rcases h : x s with ⟨r, s₁⟩
  cases r <;> rfl

/-- `migrateTo` with a numeric command on a configured, non-empty registry is
the engine run at that target, no rerun. -/
theorem migrateTo_num {migs : List Migration} {v : Int} (hmigs : migs ≠ [])
    (s : DbState) :
    migrateTo true migs (.num v) s = _migrateTo migs (some v) false s := by
  unfold migrateTo
  have hcond : ¬ (Command.num v = Command.str "" ∨ migs = []) := by
    rintro (h | h)
    · cases h
    · exact hmigs h
  simp only [Bool.not_true, Bool.false_eq_true, if_false, hcond]
  simp only [parseCommand]
  have h1 : (decide (Option.some "rerun" = Option.some "rerun")) = true := by decide
  have hsub : ((none : Option String) = some "rerun") = False := by simp
  have hsub2 : ((none : Option String) = some "exit") = False := by simp
  simp only [hsub, hsub2, decide_False, if_false]
  exact bind_pureM _ s

/-- `migrateTo` with the string command `latest` resolves the target to the
highest registered version. -/
theorem migrateTo_latest {migs : List Migration} (hmigs : migs ≠ []) (s : DbState) :
    migrateTo true migs (.str "latest") s =
      _migrateTo migs (some (((migs.getLast?).map Migration.version).getD 0)) false s := by
  unfold migrateTo
  have hcond : ¬ (Command.str "latest" = Command.str "" ∨ migs = []) := by
    rintro (h | h)
    · simp at h
    · exact hmigs h
  simp only [Bool.not_true, Bool.false_eq_true, if_false, hcond]
  have hparse : parseCommand (.str "latest") =
      { version := .latest, subcommand := none } := by decide
  rw [hparse]
  have hsub : ((none : Option String) = some "rerun") = False := by simp
  have hsub2 : ((none : Option String) = some "exit") = False := by simp
  simp only [hsub, hsub2, decide_False, if_false]
  exact bind_pureM _ s

theorem upsOf_append (t₁ t₂ : List Ev) : upsOf (t₁ ++ t₂) = upsOf t₁ ++ upsOf t₂ := by
  simp [upsOf]

theorem downsOf_append (t₁ t₂ : List Ev) :
    downsOf (t₁ ++ t₂) = downsOf t₁ ++ downsOf t₂ := by
  simp [downsOf]

theorem upsOf_upSteps (l : List Migration) : upsOf (upSteps l) = l.map Migration.version := by
  induction l with
  | nil => rfl
  | cons m l ih => simp [upSteps, upsOf] at ih ⊢; exact ih

theorem downsOf_upSteps (l : List Migration) : downsOf (upSteps l) = [] := by
  induction l with
  | nil => rfl
  | cons m l ih => simp [upSteps, downsOf] at ih ⊢; exact ih

theorem upsOf_downEvsDesc (b : Int) (l : List Migration) : upsOf (downEvsDesc b l) = [] := by
  induction l with
  | nil => rfl
  | cons m l ih => simp [downEvsDesc, upsOf] at ih ⊢; exact ih

theorem downsOf_downEvsDesc (b : Int) (l : List Migration) :
    downsOf (downEvsDesc b l) = l.map Migration.version := by
  induction l with
  | nil => rfl
  | cons m l ih => simp [downEvsDesc, downsOf] at ih ⊢; exact ih

theorem upsOf_lockAttempt : upsOf [Ev.lockAttempt] = [] := rfl

theorem upsOf_unlockAttempt : upsOf [Ev.unlockAttempt] = [] := rfl

theorem downsOf_lockAttempt : downsOf [Ev.lockAttempt] = [] := rfl

theorem downsOf_unlockAttempt : downsOf [Ev.unlockAttempt] = [] := rfl

theorem upsOf_nil : upsOf [] = [] := rfl

theorem downsOf_nil : downsOf [] = [] := rfl

theorem upsOf_cons_lockAttempt (t : List Ev) :
    upsOf (Ev.lockAttempt :: t) = upsOf t := rfl

theorem upsOf_cons_unlockAttempt (t : List Ev) :
    upsOf (Ev.unlockAttempt :: t) = upsOf t := rfl

theorem downsOf_cons_lockAttempt (t : List Ev) :
    downsOf (Ev.lockAttempt :: t) = downsOf t := rfl

theorem downsOf_cons_unlockAttempt (t : List Ev) :
    downsOf (Ev.unlockAttempt :: t) = downsOf t := rfl

/-- With positive versions, walking from `0` to the last (highest) version
covers the whole registry. -/
theorem filter_full {migs : List Migration} (hs : sortedStrict migs)
    (hpos : allPositive migs) (hne : migs ≠ []) :
    migs.filter (inRange 0 (((migs.getLast?).map Migration.version).getD 0)) = migs := by
  rw [List.filter_eq_self]
  intro m hm
  rw [List.mem_iff_getElem] at hm
  obtain ⟨j, hj, hjm⟩ := hm
  have hlast : migs.getLast? = migs[migs.length - 1]? := List.getLast?_eq_getElem? migs
  have hlen : migs.length - 1 < migs.length := by
    cases migs with
    | nil => exact absurd rfl hne
    | cons x t => simp
  rw [List.getElem?_eq_getElem hlen] at hlast
  rw [hlast]
  have hle := sorted_version_le hs (by omega : j ≤ migs.length - 1) hlen
  have hp : 0 < m.version := hpos m (by rw [← hjm]; exact List.getElem_mem hj)
  simp only [List.get_eq_getElem] at hle
  rw [hjm] at hle
  simp [inRange]
  constructor
  · omega
  · simpa using hle

/-! ## Concrete inputs for witnesses -/

/-! ## Claims -/

/-- **C1** (corrected).  For every migration passed to `add`: if its `up` is
not a function, or its version is not positive, `add` fails with the
corresponding validation error and the registry is unchanged (the migration
is not stored); otherwise the migration is stored and the registry re-sorted
ascending by version.  Version uniqueness, however, is not validated — a
duplicate version is stored (see the counterexample). -/
theorem C1_add_validation (migs : List Migration) (m : Migration) :
    (m.up = none → add migs m = .error .noUpFunction) ∧
    (m.up ≠ none → m.version ≤ 0 → add migs m = .error .versionNotPositive) ∧
    (m.up ≠ none → 0 < m.version →
      ∃ l, add migs m = .ok l ∧ m ∈ l ∧ l.Perm (migs ++ [m]) ∧ l.Pairwise byVersion) := by
  refine ⟨?_, ?_, ?_⟩
  · intro h
    simp [add, h]
  · intro h1 h2
    simp [add, h1, h2]
  · intro h1 h2
    refine ⟨(migs ++ [m]).insertionSort byVersion, ?_, ?_,
      List.perm_insertionSort byVersion _, List.sorted_insertionSort byVersion _⟩
    · simp [add, h1]
      omega
    · have := (List.perm_insertionSort byVersion (migs ++ [m])).mem_iff (a := m)
      rw [this]
      simp

/-- Witness for C1 at concrete inputs. -/
theorem C1_add_validation_witness :
    (add [] { version := 1 } = .error .noUpFunction) ∧
    (add [] { version := 0, up := some none } = .error .versionNotPositive) ∧
    (∃ l, add [] { version := 1, up := some none } = .ok l ∧
      ({ version := 1, up := some none } : Migration) ∈ l ∧
      l.Perm ([] ++ [{ version := 1, up := some none }]) ∧ l.Pairwise byVersion) :=
  ⟨(C1_add_validation [] _).1 rfl,
   (C1_add_validation [] _).2.1 (by decide) (by decide),
   (C1_add_validation [] _).2.2 (by decide) (by decide)⟩

/-- Counterexample to C1 as stated: a migration whose version equals the
version of an already-registered migration is accepted and stored — `add`
performs no uniqueness check. -/
theorem C1_duplicate_version_stored :
    ({ version := 1, up := some none } : Migration).version ∈
      ([{ version := 1, name := some "first", up := some none }] : List Migration).map
        Migration.version ∧
    add [{ version := 1, name := some "first", up := some none }]
        { version := 1, up := some none } =
      .ok [{ version := 1, name := some "first", up := some none },
           { version := 1, up := some none }] := by
  decide

/-- **C3** (confirmed).  For every fault-free forward run (persisted current
version `<` target, not a rerun, lock acquired): exactly the registered
migrations with version strictly greater than current and at most target are
applied, in ascending version order; for each one the engine first invokes
`up`, then persists that migration's version, then increments the counter; no
migration in the range is skipped, the lock is released, and the final
persisted version is the target. -/
theorem C3_forward_run {migs : List Migration} {cv tv : Int} {s : DbState}
    (hs : sortedStrict migs) (hpos : allPositive migs)
    (hcv : cv = 0 ∨ cv ∈ migs.map Migration.version)
    (htv : tv ∈ migs.map Migration.version)
    (hlt : cv < tv)
    (hup : ∀ m ∈ migs.filter (inRange cv tv), m.up = some none)
    (hf : s.faults = []) (hc : s.control = some ⟨cv, false⟩) :
    _migrateTo migs (some tv) false s =
      (.ok { success := true, fromVersion := cv, toVersion := some tv,
             migrationsRun := (migs.filter (inRange cv tv)).length },
       { s with control := some ⟨tv, false⟩,
                runCounter := (migs.filter (inRange cv tv)).length,
                trace := s.trace ++ [.lockAttempt] ++ upSteps (migs.filter (inRange cv tv))
                  ++ [.unlockAttempt] }) :=
  migrate_up_ok hs hpos hcv htv hlt hup hf hc

/-- Witness for C3: versions 1..3 from 0 to 3. -/
theorem C3_forward_run_witness :
    _migrateTo demo3 (some 3) false (store 0) =
      (.ok { success := true, fromVersion := 0, toVersion := some 3,
             migrationsRun := (demo3.filter (inRange 0 3)).length },
       { store 0 with
         control := some ⟨3, false⟩,
         runCounter := (demo3.filter (inRange 0 3)).length,
         trace := (store 0).trace ++ [.lockAttempt]
           ++ upSteps (demo3.filter (inRange 0 3)) ++ [.unlockAttempt] }) :=
  C3_forward_run (by unfold sortedStrict; decide) (by unfold allPositive; decide)
    (Or.inl rfl) (by decide) (by decide) (by decide) rfl rfl

/-- **C2** (confirmed).  For every fault-free non-rerun run that has acquired
the lock, if a step's action throws then the engine stops immediately (the
trace ends at that step's invocation, no later step appears), still releases
the lock (final control unlocked, an unlock attempt recorded), and returns —
not throws — a result with `success = false`, `migrationsRun` equal to the
number of steps completed before the failure, and `fromVersion` equal to the
version read at entry, not the partially-advanced persisted version.  Stated
for both directions. -/
theorem C2_step_failure :
    (∀ (migs : List Migration) (cv tv : Int) (s : DbState)
        (done restW : List Migration) (bad : Migration) (e : JsError),
      sortedStrict migs → allPositive migs →
      (cv = 0 ∨ cv ∈ migs.map Migration.version) →
      tv ∈ migs.map Migration.version → cv < tv →
      migs.filter (inRange cv tv) = done ++ bad :: restW →
      (∀ m ∈ done, m.up = some none) → bad.up = some (some e) →
      s.faults = [] → s.control = some ⟨cv, false⟩ →
      _migrateTo migs (some tv) false s =
        (.ok { success := false, fromVersion := cv, toVersion := some tv,
               migrationsRun := done.length, error := some e },
         { s with control := some ⟨lastVer done cv, false⟩,
                  runCounter := done.length,
                  trace := s.trace ++ [.lockAttempt] ++ upSteps done
                    ++ [.run .up bad.version] ++ [.unlockAttempt] })) ∧
    (∀ (migs : List Migration) (cv tv : Int) (s : DbState)
        (doneD restD : List Migration) (bad : Migration) (e : JsError),
      sortedStrict migs → allPositive migs →
      cv ∈ migs.map Migration.version →
      (tv = 0 ∨ tv ∈ migs.map Migration.version) → tv < cv →
      (migs.filter (inRange tv cv)).reverse = doneD ++ bad :: restD →
      (∀ m ∈ doneD, m.down = some none) → bad.down = some (some e) →
      s.faults = [] → s.control = some ⟨cv, false⟩ →
      _migrateTo migs (some tv) false s =
        (.ok { success := false, fromVersion := cv, toVersion := some tv,
               migrationsRun := doneD.length, error := some e },
         { s with
            control := some ⟨if doneD.isEmpty then cv else bad.version, false⟩,
            runCounter := doneD.length,
            trace := s.trace ++ [.lockAttempt] ++ downEvsDesc bad.version doneD
              ++ [.run .down bad.version] ++ [.unlockAttempt] })) := by
  constructor
  · intro migs cv tv s done restW bad e hs hpos hcv htv hlt hsplit hdone hbad hf hc
    exact migrate_up_actionFail hs hpos hcv htv hlt hsplit hdone hbad hf hc
  · intro migs cv tv s doneD restD bad e hs hpos hcv htv hlt hsplit hdone hbad hf hc
    exact migrate_down_fail hs hpos hcv htv hlt hsplit hdone
      (Or.inr ⟨hbad, rfl⟩) hf hc

/-- Witness for C2: forward, `[v1 ok, v2 throws, v3 ok]` migrated from 0 to 3
(result: 1 step counted, version persisted 1, unlocked); backward, `v2`'s
`down` throws when walking from 2 to 0. -/
theorem C2_step_failure_witness :
    _migrateTo
        [{ version := 1, up := some none },
         { version := 2, up := some (some (.userError 0)) },
         { version := 3, up := some none }] (some 3) false (store 0) =
      (.ok { success := false, fromVersion := 0, toVersion := some 3,
             migrationsRun := 1, error := some (.userError 0) },
       { store 0 with
         control := some ⟨1, false⟩,
         runCounter := 1,
         trace := [.lockAttempt, .run .up 1, .persist 1, .run .up 2, .unlockAttempt] }) ∧
    _migrateTo
        [{ version := 1, up := some none, down := some none },
         { version := 2, up := some none, down := some (some (.userError 1)) }]
        (some 0) false (store 2) =
      (.ok { success := false, fromVersion := 2, toVersion := some 0,
             migrationsRun := 0, error := some (.userError 1) },
       { store 2 with
         control := some ⟨2, false⟩,
         runCounter := 0,
         trace := [.lockAttempt, .run .down 2, .unlockAttempt] }) := by
  constructor
  · have h := C2_step_failure.1
      [{ version := 1, up := some none },
       { version := 2, up := some (some (.userError 0)) },
       { version := 3, up := some none }] 0 3 (store 0)
      [{ version := 1, up := some none }]
      [{ version := 3, up := some none }]
      { version := 2, up := some (some (.userError 0)) } (.userError 0)
      (by unfold sortedStrict; decide) (by unfold allPositive; decide)
      (Or.inl rfl) (by decide) (by decide) (by decide) (by decide) (by decide)
      rfl rfl
    simpa using h
  · have h := C2_step_failure.2
      [{ version := 1, up := some none, down := some none },
       { version := 2, up := some none, down := some (some (.userError 1)) }] 2 0 (store 2)
      []
      [{ version := 1, up := some none, down := some none }]
      { version := 2, up := some none, down := some (some (.userError 1)) } (.userError 1)
      (by unfold sortedStrict; decide) (by unfold allPositive; decide)
      (by decide) (Or.inl rfl) (by decide) (by decide) (by decide) (by decide)
      rfl rfl
    simpa using h

/-- **C4** (confirmed).  For every fault-free backward run (current >
target, not a rerun, lock acquired): the migrations with version in
`(target, current]` are applied in descending version order; for each one the
engine invokes its `down` action, then persists the preceding migration's
version (or the walk's base version, `0` when there is none), then increments
the counter; if a walked migration has no `down` action the run fails with
the unsupported-direction error, surfaced as a failed result with the partial
progress already recorded, and the lock is released either way. -/
theorem C4_backward_run :
    (∀ (migs : List Migration) (cv tv : Int) (s : DbState),
      sortedStrict migs → allPositive migs →
      cv ∈ migs.map Migration.version →
      (tv = 0 ∨ tv ∈ migs.map Migration.version) → tv < cv →
      (∀ m ∈ (migs.filter (inRange tv cv)).reverse, m.down = some none) →
      s.faults = [] → s.control = some ⟨cv, false⟩ →
      _migrateTo migs (some tv) false s =
        (.ok { success := true, fromVersion := cv, toVersion := some tv,
               migrationsRun := (migs.filter (inRange tv cv)).reverse.length },
         { s with control := some ⟨tv, false⟩,
                  runCounter := (migs.filter (inRange tv cv)).reverse.length,
                  trace := s.trace ++ [.lockAttempt]
                    ++ downEvsDesc tv (migs.filter (inRange tv cv)).reverse
                    ++ [.unlockAttempt] })) ∧
    (∀ (migs : List Migration) (cv tv : Int) (s : DbState)
        (doneD restD : List Migration) (bad : Migration),
      sortedStrict migs → allPositive migs →
      cv ∈ migs.map Migration.version →
      (tv = 0 ∨ tv ∈ migs.map Migration.version) → tv < cv →
      (migs.filter (inRange tv cv)).reverse = doneD ++ bad :: restD →
      (∀ m ∈ doneD, m.down = some none) → bad.down = none →
      s.faults = [] → s.control = some ⟨cv, false⟩ →
      _migrateTo migs (some tv) false s =
        (.ok { success := false, fromVersion := cv, toVersion := some tv,
               migrationsRun := doneD.length,
               error := some (.cannotMigrate .down bad.version) },
         { s with
            control := some ⟨if doneD.isEmpty then cv else bad.version, false⟩,
            runCounter := doneD.length,
            trace := s.trace ++ [.lockAttempt] ++ downEvsDesc bad.version doneD
              ++ [.unlockAttempt] })) := by
  constructor
  · intro migs cv tv s hs hpos hcv htv hlt hdown hf hc
    exact migrate_down_ok hs hpos hcv htv hlt hdown hf hc
  · intro migs cv tv s doneD restD bad hs hpos hcv htv hlt hsplit hdone hbad hf hc
    have h := migrate_down_fail hs hpos hcv htv hlt hsplit hdone
      (Or.inl ⟨hbad, rfl, rfl⟩) hf hc
    simpa using h

/-- Witness for C4: versions 1..3 walked back from 3 to 0; and a registry
whose version-2 migration lacks `down`, walked from 3 to 0 (one step of
progress, then the unsupported-direction failure). -/
theorem C4_backward_run_witness :
    _migrateTo demo3 (some 0) false (store 3) =
      (.ok { success := true, fromVersion := 3, toVersion := some 0,
             migrationsRun := (demo3.filter (inRange 0 3)).reverse.length },
       { store 3 with
         control := some ⟨0, false⟩,
         runCounter := (demo3.filter (inRange 0 3)).reverse.length,
         trace := (store 3).trace ++ [.lockAttempt]
           ++ downEvsDesc 0 (demo3.filter (inRange 0 3)).reverse
           ++ [.unlockAttempt] }) ∧
    _migrateTo
        [{ version := 1, up := some none, down := some none },
         { version := 2, up := some none },
         { version := 3, up := some none, down := some none }] (some 0) false (store 3) =
      (.ok { success := false, fromVersion := 3, toVersion := some 0,
             migrationsRun := 1, error := some (.cannotMigrate .down 2) },
       { store 3 with
         control := some ⟨2, false⟩,
         runCounter := 1,
         trace := [.lockAttempt, .run .down 3, .persist 2, .unlockAttempt] }) := by
  constructor
  · exact C4_backward_run.1 demo3 3 0 (store 3)
      (by unfold sortedStrict; decide) (by unfold allPositive; decide)
      (by decide) (Or.inl rfl) (by decide) (by decide) rfl rfl
  · have h := C4_backward_run.2
      [{ version := 1, up := some none, down := some none },
       { version := 2, up := some none },
       { version := 3, up := some none, down := some none }] 3 0 (store 3)
      [{ version := 3, up := some none, down := some none }]
      [{ version := 1, up := some none, down := some none }]
      { version := 2, up := some none }
      (by unfold sortedStrict; decide) (by unfold allPositive; decide)
      (by decide) (Or.inl rfl) (by decide) (by decide) (by decide) (by decide)
      rfl rfl
    simpa using h

/-- Counterexample to C5 as stated: with a database fault injected at the
per-step version persist (third driver call: control read, lock update, then
the persist), `_migrateTo` does NOT propagate the error — the run returns
(`Except.ok`) a failed result that merely carries the database error, the
`catch` block having consumed it; the lock is still released. -/
theorem C5_db_error_not_propagated :
    _migrateTo [{ version := 1, up := some none }] (some 1) false
        { control := some ⟨0, false⟩,
          faults := [none, none, some (.dbError 0)] } =
      (.ok { success := false, fromVersion := 0, toVersion := some 1,
             migrationsRun := 0, error := some (.dbError 0) },
       { control := some ⟨0, false⟩, faults := [], runCounter := 0,
         trace := [.lockAttempt, .run .up 1, .unlockAttempt] }) := by
  decide

/-- **C5** (corrected).  For every run that has acquired the lock, a failure
arising from a user migration action is converted into a failed result (not
thrown) — and, contrary to the original claim, an error raised by the
underlying database communication during the per-step version persist is
likewise caught by the same guarded region and converted into a failed result
carrying that error unchanged (not wrapped), with the lock-release step still
attempted.  Stated for every run shape that holds the lock: action failures
in forward, backward and rerun runs, and persist faults in forward and
backward runs (a rerun performs no per-step persist). -/
theorem C5_lock_held_failure_conversion :
    (∀ (migs : List Migration) (cv tv : Int) (s : DbState)
        (done restW : List Migration) (bad : Migration) (e : JsError),
      sortedStrict migs → allPositive migs →
      (cv = 0 ∨ cv ∈ migs.map Migration.version) →
      tv ∈ migs.map Migration.version → cv < tv →
      migs.filter (inRange cv tv) = done ++ bad :: restW →
      (∀ m ∈ done, m.up = some none) → bad.up = some (some e) →
      s.faults = [] → s.control = some ⟨cv, false⟩ →
      (_migrateTo migs (some tv) false s).1 =
        .ok { success := false, fromVersion := cv, toVersion := some tv,
              migrationsRun := done.length, error := some e } ∧
      ((_migrateTo migs (some tv) false s).2.control.map ControlDocument.locked)
        = some false) ∧
    (∀ (migs : List Migration) (cv tv : Int) (s : DbState)
        (doneD restD : List Migration) (bad : Migration) (e : JsError),
      sortedStrict migs → allPositive migs →
      cv ∈ migs.map Migration.version →
      (tv = 0 ∨ tv ∈ migs.map Migration.version) → tv < cv →
      (migs.filter (inRange tv cv)).reverse = doneD ++ bad :: restD →
      (∀ m ∈ doneD, m.down = some none) → bad.down = some (some e) →
      s.faults = [] → s.control = some ⟨cv, false⟩ →
      (_migrateTo migs (some tv) false s).1 =
        .ok { success := false, fromVersion := cv, toVersion := some tv,
              migrationsRun := doneD.length, error := some e } ∧
      ((_migrateTo migs (some tv) false s).2.control.map ControlDocument.locked)
        = some false) ∧
    (∀ (migs : List Migration) (cv tv : Int) (s : DbState) (e : JsError),
      tv ≠ 0 → tv ∈ migs.map Migration.version →
      (∀ m ∈ migs, m.version = tv → m.up = some (some e)) →
      s.faults = [] → s.control = some ⟨cv, false⟩ →
      (_migrateTo migs (some tv) true s).1 =
        .ok { success := false, fromVersion := cv, toVersion := some tv,
              migrationsRun := 0, error := some e } ∧
      ((_migrateTo migs (some tv) true s).2.control.map ControlDocument.locked)
        = some false) ∧
    (∀ (migs : List Migration) (cv tv : Int) (s : DbState)
        (done restW : List Migration) (bad : Migration) (e : JsError),
      sortedStrict migs → allPositive migs →
      (cv = 0 ∨ cv ∈ migs.map Migration.version) →
      tv ∈ migs.map Migration.version → cv < tv →
      migs.filter (inRange cv tv) = done ++ bad :: restW →
      (∀ m ∈ done, m.up = some none) → bad.up = some none →
      s.faults = none :: none :: (List.replicate done.length none ++ [some e]) →
      s.control = some ⟨cv, false⟩ →
      _migrateTo migs (some tv) false s =
        (.ok { success := false, fromVersion := cv, toVersion := some tv,
               migrationsRun := done.length, error := some e },
         { s with faults := [],
                  control := some ⟨lastVer done cv, false⟩,
                  runCounter := done.length,
                  trace := s.trace ++ [.lockAttempt] ++ upSteps done
                    ++ [.run .up bad.version] ++ [.unlockAttempt] })) ∧
    (∀ (migs : List Migration) (cv tv : Int) (s : DbState)
        (doneD restD : List Migration) (bad : Migration) (e : JsError),
      sortedStrict migs → allPositive migs →
      cv ∈ migs.map Migration.version →
      (tv = 0 ∨ tv ∈ migs.map Migration.version) → tv < cv →
      (migs.filter (inRange tv cv)).reverse = doneD ++ bad :: restD →
      (∀ m ∈ doneD, m.down = some none) → bad.down = some none →
      s.faults = none :: none :: (List.replicate doneD.length none ++ [some e]) →
      s.control = some ⟨cv, false⟩ →
      _migrateTo migs (some tv) false s =
        (.ok { success := false, fromVersion := cv, toVersion := some tv,
               migrationsRun := doneD.length, error := some e },
         { s with faults := [],
                  control := some ⟨if doneD.isEmpty then cv else bad.version, false⟩,
                  runCounter := doneD.length,
                  trace := s.trace ++ [.lockAttempt] ++ downEvsDesc bad.version doneD
                    ++ [.run .down bad.version] ++ [.unlockAttempt] })) := by
  refine ⟨?_, ?_, ?_, ?_, ?_⟩
  · intro migs cv tv s done restW bad e hs hpos hcv htv hlt hsplit hdone hbad hf hc
    rw [migrate_up_actionFail hs hpos hcv htv hlt hsplit hdone hbad hf hc]
    exact ⟨rfl, rfl⟩
  · intro migs cv tv s doneD restD bad e hs hpos hcv htv hlt hsplit hdone hbad hf hc
    rw [migrate_down_fail hs hpos hcv htv hlt hsplit hdone (Or.inr ⟨hbad, rfl⟩) hf hc]
    exact ⟨rfl, rfl⟩
  · intro migs cv tv s e hv0 htv hfail hf hc
    rw [migrate_rerun_actionFail hv0 htv hfail hf hc]
    exact ⟨rfl, rfl⟩
  · intro migs cv tv s done restW bad e hs hpos hcv htv hlt hsplit hdone hbad hf hc
    exact migrate_up_persistFault hs hpos hcv htv hlt hsplit hdone hbad hf hc
  · intro migs cv tv s doneD restD bad e hs hpos hcv htv hlt hsplit hdone hbad hf hc
    exact migrate_down_persistFault hs hpos hcv htv hlt hsplit hdone hbad hf hc

/-- Witness for C5, one concrete instance per run shape: a forward `up`
throwing at version 2; a backward `down` throwing at version 2; a rerun of
version 1 whose `up` throws; a database fault at the forward persist of
version 2; and a database fault at the backward persist below version 2. -/
theorem C5_lock_held_failure_conversion_witness :
    ((_migrateTo
        [{ version := 1, up := some none },
         { version := 2, up := some (some (.userError 2)) },
         { version := 3, up := some none }] (some 3) false (store 0)).1 =
      .ok { success := false, fromVersion := 0, toVersion := some 3,
            migrationsRun := 1, error := some (.userError 2) } ∧
      ((_migrateTo
        [{ version := 1, up := some none },
         { version := 2, up := some (some (.userError 2)) },
         { version := 3, up := some none }] (some 3) false (store 0)).2.control.map
          ControlDocument.locked) = some false) ∧
    ((_migrateTo
        [{ version := 1, up := some none, down := some none },
         { version := 2, up := some none, down := some (some (.userError 1)) }]
        (some 0) false (store 2)).1 =
      .ok { success := false, fromVersion := 2, toVersion := some 0,
            migrationsRun := 0, error := some (.userError 1) } ∧
      ((_migrateTo
        [{ version := 1, up := some none, down := some none },
         { version := 2, up := some none, down := some (some (.userError 1)) }]
        (some 0) false (store 2)).2.control.map
          ControlDocument.locked) = some false) ∧
    ((_migrateTo [{ version := 1, up := some (some (.userError 3)) }]
        (some 1) true (store 0)).1 =
      .ok { success := false, fromVersion := 0, toVersion := some 1,
            migrationsRun := 0, error := some (.userError 3) } ∧
      ((_migrateTo [{ version := 1, up := some (some (.userError 3)) }]
        (some 1) true (store 0)).2.control.map
          ControlDocument.locked) = some false) ∧
    _migrateTo demo3 (some 3) false
        { control := some ⟨0, false⟩,
          faults := none :: none :: (List.replicate
            ([{ version := 1, up := some none, down := some none }] :
              List Migration).length none ++ [some (.dbError 7)]) } =
      (.ok { success := false, fromVersion := 0, toVersion := some 3,
             migrationsRun := 1, error := some (.dbError 7) },
       { control := some ⟨1, false⟩, faults := [], runCounter := 1,
         trace := [.lockAttempt, .run .up 1, .persist 1, .run .up 2,
           .unlockAttempt] }) ∧
    _migrateTo demo3 (some 0) false
        { control := some ⟨3, false⟩,
          faults := none :: none :: (List.replicate
            ([{ version := 3, up := some none, down := some none }] :
              List Migration).length none ++ [some (.dbError 9)]) } =
      (.ok { success := false, fromVersion := 3, toVersion := some 0,
             migrationsRun := 1, error := some (.dbError 9) },
       { control := some ⟨2, false⟩, faults := [], runCounter := 1,
         trace := [.lockAttempt, .run .down 3, .persist 2, .run .down 2,
           .unlockAttempt] }) := by
  refine ⟨?_, ?_, ?_, ?_, ?_⟩
  · exact C5_lock_held_failure_conversion.1
      [{ version := 1, up := some none },
       { version := 2, up := some (some (.userError 2)) },
       { version := 3, up := some none }] 0 3 (store 0)
      [{ version := 1, up := some none }]
      [{ version := 3, up := some none }]
      { version := 2, up := some (some (.userError 2)) } (.userError 2)
      (by unfold sortedStrict; decide) (by unfold allPositive; decide)
      (Or.inl rfl) (by decide) (by decide) (by decide) (by decide) (by decide)
      rfl rfl
  · exact C5_lock_held_failure_conversion.2.1
      [{ version := 1, up := some none, down := some none },
       { version := 2, up := some none, down := some (some (.userError 1)) }] 2 0 (store 2)
      []
      [{ version := 1, up := some none, down := some none }]
      { version := 2, up := some none, down := some (some (.userError 1)) } (.userError 1)
      (by unfold sortedStrict; decide) (by unfold allPositive; decide)
      (by decide) (Or.inl rfl) (by decide) (by decide) (by decide) (by decide)
      rfl rfl
  · exact C5_lock_held_failure_conversion.2.2.1
      [{ version := 1, up := some (some (.userError 3)) }] 0 1 (store 0) (.userError 3)
      (by decide) (by decide) (by decide) rfl rfl
  · have h := C5_lock_held_failure_conversion.2.2.2.1 demo3 0 3
      { control := some ⟨0, false⟩,
        faults := none :: none :: (List.replicate
          ([{ version := 1, up := some none, down := some none }] :
            List Migration).length none ++ [some (.dbError 7)]) }
      [{ version := 1, up := some none, down := some none }]
      [{ version := 3, up := some none, down := some none }]
      { version := 2, up := some none, down := some none } (.dbError 7)
      (by unfold sortedStrict; decide) (by unfold allPositive; decide)
      (Or.inl rfl) (by decide) (by decide) (by decide) (by decide) (by decide)
      rfl rfl
    simpa using h
  · have h := C5_lock_held_failure_conversion.2.2.2.2 demo3 3 0
      { control := some ⟨3, false⟩,
        faults := none :: none :: (List.replicate
          ([{ version := 3, up := some none, down := some none }] :
            List Migration).length none ++ [some (.dbError 9)]) }
      [{ version := 3, up := some none, down := some none }]
      [{ version := 1, up := some none, down := some none }]
      { version := 2, up := some none, down := some none } (.dbError 9)
      (by unfold sortedStrict; decide) (by unfold allPositive; decide)
      (by decide) (Or.inl rfl) (by decide) (by decide) (by decide) (by decide)
      rfl rfl
    simpa using h

/-- **C6** (confirmed).  Looking up version 0 yields the synthetic
before-everything index `-1` rather than failing; any other version absent
from the registry makes the lookup fail with the not-found error; and a
non-rerun run whose target is neither 0 nor registered (and differs from the
current version, so the fast path does not intercept it, with the lock free
and the current version resolvable) fails with that not-found error raised
mid-resolution — surfaced, the lock having been acquired, as a failed result
that releases the lock. -/
theorem C6_target_not_found :
    (∀ migs : List Migration, findIndexByVersion migs (some 0) = .ok (-1)) ∧
    (∀ (migs : List Migration) (v : Int), v ≠ 0 → v ∉ migs.map Migration.version →
      findIndexByVersion migs (some v) = .error (.notFound (some v))) ∧
    (∀ (migs : List Migration) (cv tv : Int) (s : DbState),
      allPositive migs →
      (cv = 0 ∨ cv ∈ migs.map Migration.version) →
      tv ≠ 0 → tv ∉ migs.map Migration.version → cv ≠ tv →
      s.faults = [] → s.control = some ⟨cv, false⟩ →
      _migrateTo migs (some tv) false s =
        (.ok { success := false, fromVersion := cv, toVersion := some tv,
               migrationsRun := 0, error := some (.notFound (some tv)) },
         { s with control := some ⟨cv, false⟩, runCounter := 0,
                  trace := s.trace ++ [.lockAttempt, .unlockAttempt] })) := by
  refine ⟨findIndexByVersion_zero, ?_, ?_⟩
  · intro migs v hv hnot
    exact findIndexByVersion_notFound hv hnot
  · intro migs cv tv s hpos hcv hv0 hnot hne hf hc
    exact migrate_notFound hpos hcv hv0 hnot hne hf hc

/-- Witness for C6: version 5 is absent from the 1..3 registry. -/
theorem C6_target_not_found_witness :
    findIndexByVersion demo3 (some 0) = .ok (-1) ∧
    findIndexByVersion demo3 (some 5) = .error (.notFound (some 5)) ∧
    _migrateTo demo3 (some 5) false (store 0) =
      (.ok { success := false, fromVersion := 0, toVersion := some 5,
             migrationsRun := 0, error := some (.notFound (some 5)) },
       { store 0 with control := some ⟨0, false⟩, runCounter := 0,
                      trace := (store 0).trace ++ [.lockAttempt, .unlockAttempt] }) :=
  ⟨C6_target_not_found.1 demo3,
   C6_target_not_found.2.1 demo3 5 (by decide) (by decide),
   C6_target_not_found.2.2 demo3 0 5 (store 0) (by unfold allPositive; decide)
     (Or.inl rfl) (by decide) (by decide) (by decide) rfl rfl⟩

/-- **C7** (confirmed).  When the persisted current version equals the
resolved target and the run is not a rerun, `_migrateTo` takes the fast path:
it returns success with `migrationsRun = 0` and the state is untouched apart
from resetting the step counter — in particular no lock attempt and no step
invocation is recorded in the trace; consequently, running a successful
forward migration twice in a row leaves the second call a no-op. -/
theorem C7_fastpath_idempotent :
    (∀ (migs : List Migration) (v : Int) (s : DbState) (c : ControlDocument),
      s.faults = [] → s.control = some c → c.version = v →
      _migrateTo migs (some v) false s =
        (.ok { success := true, fromVersion := v, toVersion := some v,
               migrationsRun := 0 },
         { s with runCounter := 0 })) ∧
    (∀ (migs : List Migration) (cv tv : Int) (s : DbState),
      sortedStrict migs → allPositive migs →
      (cv = 0 ∨ cv ∈ migs.map Migration.version) →
      tv ∈ migs.map Migration.version → cv < tv →
      (∀ m ∈ migs.filter (inRange cv tv), m.up = some none) →
      s.faults = [] → s.control = some ⟨cv, false⟩ →
      _migrateTo migs (some tv) false ((_migrateTo migs (some tv) false s).2) =
        (.ok { success := true, fromVersion := tv, toVersion := some tv,
               migrationsRun := 0 },
         { (_migrateTo migs (some tv) false s).2 with runCounter := 0 })) := by
  constructor
  · intro migs v s c hf hc hv
    exact migrate_fastpath hf hc hv
  · intro migs cv tv s hs hpos hcv htv hlt hup hf hc
    rw [migrate_up_ok hs hpos hcv htv hlt hup hf hc]
    exact migrate_fastpath (by simpa using hf) rfl rfl

/-- Witness for C7: a store already at version 2, and the 0-to-3 run followed
by a second identical call. -/
theorem C7_fastpath_idempotent_witness :
    _migrateTo demo3 (some 2) false (store 2) =
      (.ok { success := true, fromVersion := 2, toVersion := some 2,
             migrationsRun := 0 },
       { store 2 with runCounter := 0 }) ∧
    _migrateTo demo3 (some 3) false ((_migrateTo demo3 (some 3) false (store 0)).2) =
      (.ok { success := true, fromVersion := 3, toVersion := some 3,
             migrationsRun := 0 },
       { (_migrateTo demo3 (some 3) false (store 0)).2 with runCounter := 0 }) :=
  ⟨C7_fastpath_idempotent.1 demo3 2 (store 2) ⟨2, false⟩ rfl rfl rfl,
   C7_fastpath_idempotent.2 demo3 0 3 (store 0)
     (by unfold sortedStrict; decide) (by unfold allPositive; decide)
     (Or.inl rfl) (by decide) (by decide) (by decide) rfl rfl⟩

/-- **C8** (confirmed).  For every fault-free run that reaches lock
acquisition and finds the control record already locked (any rerun run, or a
non-rerun run whose target differs from the current version), `_migrateTo`
returns — does not throw — a result with `success = false`, the lock-held
error, and `migrationsRun = 0`; the trace gains exactly the one lock attempt:
no migration step is invoked and no retry happens. -/
theorem C8_lock_denied :
    ∀ (migs : List Migration) (version : Option Int) (r : Bool) (s : DbState) (cv : Int),
      s.faults = [] → s.control = some ⟨cv, true⟩ →
      (r = true ∨ jsEq (some cv) version = false) →
      _migrateTo migs version r s =
        (.ok { success := false, fromVersion := cv, toVersion := version,
               migrationsRun := 0, error := some .lockHeld },
         { s with runCounter := 0, trace := s.trace ++ [.lockAttempt] }) := by
  intro migs version r s cv hf hc hcond
  apply migrate_locked hf hc
  rcases hcond with rfl | h
  · rfl
  · rw [h]
    simp

/-- Witness for C8: a locked store at version 1, targeting version 3. -/
theorem C8_lock_denied_witness :
    _migrateTo demo3 (some 3) false
        { control := some ⟨1, true⟩ } =
      (.ok { success := false, fromVersion := 1, toVersion := some 3,
             migrationsRun := 0, error := some .lockHeld },
       { ({ control := some ⟨1, true⟩ } : DbState) with
         runCounter := 0,
         trace := ({ control := some ⟨1, true⟩ } : DbState).trace ++ [.lockAttempt] }) :=
  C8_lock_denied demo3 (some 3) false { control := some ⟨1, true⟩ } 1
    rfl rfl (Or.inr (by decide))

/-- **C9** (confirmed).  For every registry whose migrations all have a
`down` action (and resolve), migrating from persisted version 0 to `latest`
and then back to 0 invokes each migration's `down` exactly once, in the exact
reverse order of the `up` invocations (the trace's down-versions are the
reverse of its up-versions, which list every registered version once, in
order), and leaves the persisted version equal to 0 with the lock free. -/
theorem C9_round_trip :
    ∀ (migs : List Migration) (s : DbState),
      sortedStrict migs → allPositive migs → migs ≠ [] →
      (∀ m ∈ migs, m.up = some none) → (∀ m ∈ migs, m.down = some none) →
      s.faults = [] → s.control = some ⟨0, false⟩ → s.trace = [] →
      downsOf ((migrateTo true migs (.num 0)
          ((migrateTo true migs (.str "latest") s).2)).2).trace =
        (upsOf ((migrateTo true migs (.num 0)
          ((migrateTo true migs (.str "latest") s).2)).2).trace).reverse ∧
      upsOf ((migrateTo true migs (.num 0)
          ((migrateTo true migs (.str "latest") s).2)).2).trace =
        migs.map Migration.version ∧
      ((migrateTo true migs (.num 0)
          ((migrateTo true migs (.str "latest") s).2)).2).control = some ⟨0, false⟩ := by
  intro migs s hs hpos hne hup hdown hf hc htr
  obtain ⟨mlast, hlast⟩ : ∃ ml, migs.getLast? = some ml := by
    cases h : migs.getLast? with
    | none => exact absurd (List.getLast?_eq_none_iff.mp h) hne
    | some ml => exact ⟨ml, rfl⟩
  have hL : ((migs.getLast?).map Migration.version).getD 0 = mlast.version := by
    rw [hlast]
    rfl
  have hmemlast : mlast ∈ migs := List.mem_of_getLast?_eq_some hlast
  have hmemL : mlast.version ∈ migs.map Migration.version :=
    List.mem_map_of_mem Migration.version hmemlast
  have hpos0 : (0 : Int) < mlast.version := hpos mlast hmemlast
  have hfull := filter_full hs hpos hne
  rw [hL] at hfull
  rw [migrateTo_latest hne s, hL]
  rw [migrate_up_ok hs hpos (Or.inl rfl) hmemL hpos0
    (by rw [hfull]; exact hup) hf hc]
  dsimp only
  rw [migrateTo_num hne]
  rw [migrate_down_ok hs hpos hmemL (Or.inl rfl) hpos0
    (by rw [hfull]; intro m hm; exact hdown m (List.mem_reverse.mp hm))
    (by simpa using hf) rfl]
  dsimp only
  rw [hfull, htr]
  refine ⟨?_, ?_, rfl⟩
  · simp [downsOf_append, upsOf_append, downsOf_upSteps, upsOf_upSteps,
      downsOf_downEvsDesc, upsOf_downEvsDesc, List.map_reverse,
      downsOf_lockAttempt, downsOf_unlockAttempt, upsOf_lockAttempt,
      upsOf_unlockAttempt, upsOf_nil, downsOf_nil, upsOf_cons_lockAttempt,
      upsOf_cons_unlockAttempt, downsOf_cons_lockAttempt,
      downsOf_cons_unlockAttempt]
  · simp [upsOf_append, upsOf_upSteps, upsOf_downEvsDesc, upsOf_lockAttempt,
      upsOf_unlockAttempt, upsOf_nil, upsOf_cons_lockAttempt,
      upsOf_cons_unlockAttempt]

/-- Witness for C9: the reversible registry 1..3 from a fresh store. -/
theorem C9_round_trip_witness :
    downsOf ((migrateTo true demo3 (.num 0)
        ((migrateTo true demo3 (.str "latest") (store 0)).2)).2).trace =
      (upsOf ((migrateTo true demo3 (.num 0)
        ((migrateTo true demo3 (.str "latest") (store 0)).2)).2).trace).reverse ∧
    upsOf ((migrateTo true demo3 (.num 0)
        ((migrateTo true demo3 (.str "latest") (store 0)).2)).2).trace =
      demo3.map Migration.version ∧
    ((migrateTo true demo3 (.num 0)
        ((migrateTo true demo3 (.str "latest") (store 0)).2)).2).control =
      some ⟨0, false⟩ :=
  C9_round_trip demo3 (store 0)
    (by unfold sortedStrict; decide) (by unfold allPositive; decide)
    (by decide) (by decide) (by decide) rfl rfl rfl

/-- **C10** (confirmed).  A non-rerun `migrateTo` call with a numeric target
equal to the persisted current version — configured connection, non-empty
(numeric, hence non-empty-string) command, non-empty registry — succeeds with
`migrationsRun = 0` even when no registered migration has that version: the
fast-path equality check runs before any registry lookup of the target, so an
unregistered target equal to the current version is never detected as
missing. -/
theorem C10_fastpath_shadows_missing_target :
    ∀ (migs : List Migration) (v : Int) (s : DbState) (locked : Bool),
      migs ≠ [] → v ∉ migs.map Migration.version →
      s.faults = [] → s.control = some ⟨v, locked⟩ →
      migrateTo true migs (.num v) s =
        (.ok { success := true, fromVersion := v, toVersion := some v,
               migrationsRun := 0 },
         { s with runCounter := 0 }) := by
  intro migs v s locked hne _ hf hc
  rw [migrateTo_num hne]
  exact migrate_fastpath hf hc rfl

/-- Witness for C10: version 7 is current but unregistered in the 1..3
registry; the call still succeeds as a no-op. -/
theorem C10_fastpath_shadows_missing_target_witness :
    migrateTo true demo3 (.num 7) (store 7) =
      (.ok { success := true, fromVersion := 7, toVersion := some 7,
             migrationsRun := 0 },
       { store 7 with runCounter := 0 }) :=
  C10_fastpath_shadows_missing_target demo3 7 (store 7) false
    (by decide) (by decide) rfl rfl

end QuaveMigrations
